import Mathlib

/-!
Shallow embedding of the `meikuraledutech/dag` repository: the entity model
(`dag.Node`, `dag.Edge`, `dag.DAG`), the cycle validator `validateAcyclic`
(three-state depth-first search, `postgres/dag.go`), and the PostgreSQL store
operations (`CreateDAG`, `AddEdge`, `UpdateEdge`, `DeleteNode`, the list
accessors) over an explicit database state.

Modelling conventions:
* Opaque JSON payloads (`json.RawMessage`) are modelled as `String`.
* The UUID generator is an explicit parameter (`Nat → String` stream, or a
  single fresh string where one id is needed).
* Go maps with `int` zero-value defaults become total functions
  `String → Nat` defaulting to `0`; the key set of the DFS state table
  becomes an explicit key list (Go's randomized map iteration order is
  an arbitrary order, so the embedding fixes one; all lemmas below are
  proved for an arbitrary key list).
* The recursive `dfs` closure is modelled with a fuel parameter; fuel
  `keys.length + 1` is proved sufficient, so the out-of-fuel branch is
  unreachable on the validator's actual call.
* Database tables are lists of rows kept in insertion order, which models
  `ORDER BY created_at` retrieval; a transaction that fails before commit
  returns the input database unchanged.
-/

namespace DagSpec

/-- Mirrors `dag.Node`: `ID`, `Ref`, `Data`. -/
structure Node where
  id : String
  ref : String
  data : String
deriving DecidableEq, Repr

/-- Mirrors `dag.Edge`: `ID`, `FromNodeID`, `ToNodeID`, `FromNodeRef`, `ToNodeRef`, `Data`. -/
structure Edge where
  id : String
  fromNodeID : String
  toNodeID : String
  fromNodeRef : String
  toNodeRef : String
  data : String
deriving DecidableEq, Repr

/-- Mirrors `dag.DAG`: `ID`, `Nodes`, `Edges`. -/
structure DAG where
  id : String
  nodes : List Node
  edges : List Edge
deriving DecidableEq, Repr

/-- The error outcomes of the store operations: the sentinel errors of
`store.go` plus the two `fmt.Errorf` unknown-reference failures of
`CreateDAG`, which carry the offending ref string. -/
inductive DagError where
  | cycleDetected
  | nodeNotFound
  | edgeNotFound
  | unknownFromRef (r : String)
  | unknownToRef (r : String)
deriving DecidableEq, Repr

/-! ## The cycle validator (`validateAcyclic`, postgres/dag.go) -/

/-- The adjacency map of `validateAcyclic`:
`adj[e.FromNodeID] = append(adj[e.FromNodeID], e.ToNodeID)` over the edge
list, i.e. the `ToNodeID`s of the edges leaving `u`, in edge-list order. -/
def adjOf (edges : List Edge) (u : String) : List String :=
  (edges.filter fun e => e.fromNodeID = u).map fun e => e.toNodeID

/-- The DFS state table `state : map[string]int`; a Go map lookup of a
missing key yields the zero value `0` (= unvisited), so the table is a
total function defaulting to `0`. States: 0 unvisited, 1 visiting, 2 done. -/
abbrev DfsState := String → Nat

/-- `state[k] = v`. -/
def setState (st : DfsState) (k : String) (v : Nat) : DfsState :=
  fun x => if x = k then v else st x

/-- The `for _, next := range adj[id]` loop body of `dfs`: scan the successor
list of `u`, returning `true` on a `visiting` successor, recursing (via
`visit`) into `unvisited` successors, skipping `done` ones; when the list is
exhausted, mark `u` done and return `false`.  `none` models out-of-fuel in
`visit` and is proved unreachable for the validator's fuel. -/
def dfsStep (visit : DfsState → String → Option (Bool × DfsState)) (u : String) :
    DfsState → List String → Option (Bool × DfsState)
  | st, [] => some (false, setState st u 2)
  | st, next :: rest =>
    if st next = 1 then some (true, st)
    else if st next = 0 then
      match visit st next with
      | none => none
      | some (true, st1) => some (true, st1)
      | some (false, st1) => dfsStep visit u st1 rest
    else dfsStep visit u st rest

/-- The recursive closure `dfs`: mark `u` visiting, scan its successors.
The fuel argument only bounds recursion depth (Go needs none because each
recursive call permanently marks a node). -/
def dfsVisit (adj : String → List String) : Nat → DfsState → String → Option (Bool × DfsState)
  | 0, _, _ => none
  | fuel + 1, st, u => dfsStep (dfsVisit adj fuel) u (setState st u 1) (adj u)

/-- The `for id, s := range state` driver loop of `validateAcyclic`: run
`dfs` from every still-unvisited key. -/
def validateLoop (adj : String → List String) (fuel : Nat) :
    DfsState → List String → Option (Bool × DfsState)
  | st, [] => some (false, st)
  | st, k :: rest =>
    if st k = 0 then
      match dfsVisit adj fuel st k with
      | none => none
      | some (true, st1) => some (true, st1)
      | some (false, st1) => validateLoop adj fuel st1 rest
    else validateLoop adj fuel st rest

/-- The key set of the `state` table: every declared node id plus every node
id appearing as an edge endpoint (the Go code inserts these into the map; a
map's key set is unordered and duplicate inserts are no-ops, so a list with
possible duplicates, scanned left to right, is an equivalent model). -/
def stateKeys (nodes : List Node) (edges : List Edge) : List String :=
  (nodes.map fun n => n.id) ++ (edges.map fun e => e.fromNodeID)
    ++ (edges.map fun e => e.toNodeID)

/-- `validateAcyclic(nodes, edges)`: `Except.ok ()` models `nil`,
`Except.error .cycleDetected` models `dag.ErrCycleDetected`.  Fuel
`keys.length + 1` is proved sufficient below (`validateLoop_ne_none`), so
the catch-all branch only ever sees the cycle-found outcome. -/
def validateAcyclic (nodes : List Node) (edges : List Edge) : Except DagError Unit :=
  match validateLoop (adjOf edges) ((stateKeys nodes edges).length + 1)
      (fun _ => 0) (stateKeys nodes edges) with
  | some (false, _) => Except.ok ()
  | _ => Except.error DagError.cycleDetected

/-! ## The mathematical cycle predicate -/

/-- `edgeStep edges u v`: some edge of the list goes from `u` to `v`. -/
def edgeStep (edges : List Edge) (u v : String) : Prop :=
  ∃ e ∈ edges, e.fromNodeID = u ∧ e.toNodeID = v

/-- The edge list, viewed as a directed graph over node ids, contains a
directed cycle: some node reaches itself by a nonempty edge path. -/
def hasCycle (edges : List Edge) : Prop :=
  ∃ u, Relation.TransGen (edgeStep edges) u u

/-! ## The PostgreSQL store state -/

/-- A row of `dag_nodes`. -/
structure NodeRow where
  id : String
  dagID : String
  data : String
deriving DecidableEq, Repr

/-- A row of `dag_edges`. -/
structure EdgeRow where
  id : String
  dagID : String
  fromNodeID : String
  toNodeID : String
  data : String
deriving DecidableEq, Repr

/-- The database: the two tables, each kept in insertion order, which models
retrieval with `ORDER BY created_at`. -/
structure DB where
  nodeRows : List NodeRow
  edgeRows : List EdgeRow
deriving DecidableEq, Repr

/-- Scanning a node row yields a `dag.Node` with an empty `Ref` (the column
does not exist). -/
def nodeOfRow (r : NodeRow) : Node :=
  ⟨r.id, "", r.data⟩

/-- Scanning an edge row yields a `dag.Edge` with empty ref fields. -/
def edgeOfRow (r : EdgeRow) : Edge :=
  ⟨r.id, r.fromNodeID, r.toNodeID, "", "", r.data⟩

/-- `ListNodes`: all nodes of one dag, in `created_at` order. -/
def ListNodes (db : DB) (dagID : String) : List Node :=
  (db.nodeRows.filter fun r => r.dagID = dagID).map nodeOfRow

/-- `ListEdges`: all edges of one dag, in `created_at` order. -/
def ListEdges (db : DB) (dagID : String) : List Edge :=
  (db.edgeRows.filter fun r => r.dagID = dagID).map edgeOfRow

/-! ## CreateDAG (postgres/dag.go) -/

/-- First loop of `CreateDAG`: assign a fresh UUID to each node lacking an
id.  `gen k` is the k-th freshly generated UUID; the counter threads through
the traversal. -/
def assignNodes (gen : Nat → String) : Nat → List Node → List Node × Nat
  | k, [] => ([], k)
  | k, n :: ns =>
    if n.id = "" then
      ({ n with id := gen k } :: (assignNodes gen (k + 1) ns).1,
        (assignNodes gen (k + 1) ns).2)
    else
      (n :: (assignNodes gen k ns).1, (assignNodes gen k ns).2)

/-- `refMap[n.Ref] = n.ID` (performed for every node whose `Ref` is
nonempty); a later node with the same ref overwrites an earlier one. -/
def refInsert (m : String → Option String) (n : Node) (r : String) : Option String :=
  if n.ref = "" then m r else if r = n.ref then some n.id else m r

/-- The `refMap` built by the first loop of `CreateDAG`, as a lookup
function. -/
def refMapOf (ns : List Node) : String → Option String :=
  ns.foldl refInsert fun _ => none

/-- "Resolve from ref": if `FromNodeRef` is nonempty, look it up and
overwrite `FromNodeID`, failing on an unknown ref. -/
def resolveFrom (m : String → Option String) (e : Edge) : Except DagError Edge :=
  if e.fromNodeRef = "" then Except.ok e
  else
    match m e.fromNodeRef with
    | some nid => Except.ok { e with fromNodeID := nid }
    | none => Except.error (DagError.unknownFromRef e.fromNodeRef)

/-- "Resolve to ref", symmetric to `resolveFrom`. -/
def resolveTo (m : String → Option String) (e : Edge) : Except DagError Edge :=
  if e.toNodeRef = "" then Except.ok e
  else
    match m e.toNodeRef with
    | some nid => Except.ok { e with toNodeID := nid }
    | none => Except.error (DagError.unknownToRef e.toNodeRef)

/-- Second loop of `CreateDAG`: per edge, assign an id if missing, then
resolve the from ref, then the to ref; the first failure aborts. -/
def resolveEdges (m : String → Option String) (gen : Nat → String) :
    Nat → List Edge → Except DagError (List Edge × Nat)
  | k, [] => Except.ok ([], k)
  | k, e :: es =>
    match resolveFrom m (if e.id = "" then { e with id := gen k } else e) with
    | Except.error err => Except.error err
    | Except.ok e1 =>
      match resolveTo m e1 with
      | Except.error err => Except.error err
      | Except.ok e2 =>
        match resolveEdges m gen (if e.id = "" then k + 1 else k) es with
        | Except.error err => Except.error err
        | Except.ok q => Except.ok (e2 :: q.1, q.2)

/-- The two `DELETE ... WHERE dag_id = $1` statements opening the
`CreateDAG` transaction (replace semantics). -/
def deleteDagRows (db : DB) (dagID : String) : DB :=
  { nodeRows := db.nodeRows.filter fun r => ¬ r.dagID = dagID,
    edgeRows := db.edgeRows.filter fun r => ¬ r.dagID = dagID }

/-- `INSERT INTO dag_nodes (id, dag_id, data)`. -/
def insertNodeRow (db : DB) (dagID : String) (n : Node) : DB :=
  { db with nodeRows := db.nodeRows ++ [⟨n.id, dagID, n.data⟩] }

/-- `INSERT INTO dag_edges (id, dag_id, from_node_id, to_node_id, data)`. -/
def insertEdgeRow (db : DB) (dagID : String) (e : Edge) : DB :=
  { db with edgeRows := db.edgeRows ++ [⟨e.id, dagID, e.fromNodeID, e.toNodeID, e.data⟩] }

/-- The node-insertion loop of `CreateDAG`. -/
def insertNodeRows (db : DB) (dagID : String) (ns : List Node) : DB :=
  ns.foldl (fun acc n => insertNodeRow acc dagID n) db

/-- The edge-insertion loop of `CreateDAG`. -/
def insertEdgeRows (db : DB) (dagID : String) (es : List Edge) : DB :=
  es.foldl (fun acc e => insertEdgeRow acc dagID e) db

/-- "Clear ref fields from response": node part. -/
def stripNodeRef (n : Node) : Node :=
  { n with ref := "" }

/-- "Clear ref fields from response": edge part. -/
def stripEdgeRefs (e : Edge) : Edge :=
  { e with fromNodeRef := "", toNodeRef := "" }

/-- `CreateDAG`: assign node ids and build the ref map; resolve edge refs
(assigning edge ids); validate acyclicity; then, in one transaction, delete
the graph's previous rows and insert the new nodes and edges; finally strip
the ref fields from the returned DAG.  Any failure leaves the database
unchanged (the transaction is rolled back or never opened), which the model
expresses by returning the input database next to the error. -/
def CreateDAG (db : DB) (gen : Nat → String) (d : DAG) : Except DagError DAG × DB :=
  match resolveEdges (refMapOf (assignNodes gen 0 d.nodes).1) gen
      (assignNodes gen 0 d.nodes).2 d.edges with
  | Except.error err => (Except.error err, db)
  | Except.ok re =>
    match validateAcyclic (assignNodes gen 0 d.nodes).1 re.1 with
    | Except.error err => (Except.error err, db)
    | Except.ok _ =>
      (Except.ok { id := d.id, nodes := (assignNodes gen 0 d.nodes).1.map stripNodeRef,
                   edges := re.1.map stripEdgeRefs },
       insertEdgeRows (insertNodeRows (deleteDagRows db d.id) d.id
         (assignNodes gen 0 d.nodes).1) d.id re.1)

/-! ## AddEdge (postgres/dag.go) -/

/-- `if edge.ID == "" { edge.ID = uuid.NewString() }`. -/
def assignEdgeID (edge : Edge) (genID : String) : Edge :=
  if edge.id = "" then { edge with id := genID } else edge

/-- The read-and-validate phase of `AddEdge`: load the graph's nodes and
edges and validate with the candidate edge appended. -/
def addEdgeValidation (db : DB) (dagID : String) (e : Edge) : Except DagError Unit :=
  validateAcyclic (ListNodes db dagID) (ListEdges db dagID ++ [e])

/-- The write phase of `AddEdge`: the single-row insert statement. -/
def addEdgeInsert (db : DB) (dagID : String) (e : Edge) : DB :=
  insertEdgeRow db dagID e

/-- `AddEdge`: assign an id if absent, validate against the full current
edge set plus the candidate, then insert the single row.  The two phases
are separate statements in the source (no transaction wraps them). -/
def AddEdge (db : DB) (dagID : String) (edge : Edge) (genID : String) :
    Except DagError String × DB :=
  match addEdgeValidation db dagID (assignEdgeID edge genID) with
  | Except.error err => (Except.error err, db)
  | Except.ok _ => (Except.ok (assignEdgeID edge genID).id,
      addEdgeInsert db dagID (assignEdgeID edge genID))

/-! ## UpdateEdge (postgres/dag.go) -/

/-- The `SELECT dag_id FROM dag_edges WHERE id = $1` lookup. -/
def findEdgeDagID (db : DB) (edgeID : String) : Option String :=
  (db.edgeRows.find? fun r => r.id = edgeID).map fun r => r.dagID

/-- The in-memory splice of `UpdateEdge`: overwrite the endpoints of the
first loaded edge carrying the updated id (the loop breaks after the first
match). -/
def replaceEdgeEndpoints (upd : Edge) : List Edge → List Edge
  | [] => []
  | e :: es =>
    if e.id = upd.id then
      { e with fromNodeID := upd.fromNodeID, toNodeID := upd.toNodeID } :: es
    else e :: replaceEdgeEndpoints upd es

/-- The row update performed by the UPDATE statement of `UpdateEdge`. -/
def updateEdgeRow (edge : Edge) (r : EdgeRow) : EdgeRow :=
  if r.id = edge.id then
    { r with fromNodeID := edge.fromNodeID, toNodeID := edge.toNodeID, data := edge.data }
  else r

/-- `UpdateEdge`: find the edge's dag id (edge-not-found if absent); load
the graph, splice the updated endpoints in, validate; then run the UPDATE
statement, which errors with edge-not-found if it touched no row. -/
def UpdateEdge (db : DB) (edge : Edge) : Except DagError Unit × DB :=
  match findEdgeDagID db edge.id with
  | none => (Except.error DagError.edgeNotFound, db)
  | some dagID =>
    match validateAcyclic (ListNodes db dagID)
        (replaceEdgeEndpoints edge (ListEdges db dagID)) with
    | Except.error err => (Except.error err, db)
    | Except.ok _ =>
      if db.edgeRows.any fun r => r.id = edge.id then
        (Except.ok (), { db with edgeRows := db.edgeRows.map (updateEdgeRow edge) })
      else (Except.error DagError.edgeNotFound, db)

/-! ## DeleteNode (postgres/node.go with the schema of schema.go) -/

/-- `DeleteNode`: `DELETE FROM dag_nodes WHERE id = $1`; the
`ON DELETE CASCADE` clauses on `dag_edges.from_node_id` and
`dag_edges.to_node_id` declared in `schemaSQL` delete every edge row
referencing the deleted node. -/
def DeleteNode (db : DB) (nodeID : String) : DB :=
  { nodeRows := db.nodeRows.filter fun r => ¬ r.id = nodeID,
    edgeRows := db.edgeRows.filter fun r =>
      ¬ (r.fromNodeID = nodeID ∨ r.toNodeID = nodeID) }

/-- A ref label is declared by some node of the list. -/
def declaresRef (ns : List Node) (r : String) : Prop :=
  ∃ n ∈ ns, n.ref = r

/-- What the node loop of `CreateDAG` does to one node: refs and data are
untouched; a missing id is replaced by a generated one, a present id is
kept. -/
def NodeAssigned (gen : Nat → String) (n nA : Node) : Prop :=
  nA.ref = n.ref ∧ nA.data = n.data ∧
    ((n.id = "" ∧ ∃ k, nA.id = gen k) ∨ (n.id ≠ "" ∧ nA.id = n.id))

/-- What the edge loop of `CreateDAG` does to one edge: refs and data are
untouched; a missing id is replaced by a generated one; an endpoint id is
overwritten with the ref's mapping exactly when the corresponding ref is
nonempty. -/
def EdgeResolved (m : String → Option String) (gen : Nat → String) (e eR : Edge) : Prop :=
  eR.fromNodeRef = e.fromNodeRef ∧ eR.toNodeRef = e.toNodeRef ∧ eR.data = e.data ∧
    ((e.id = "" ∧ ∃ k, eR.id = gen k) ∨ (e.id ≠ "" ∧ eR.id = e.id)) ∧
    (e.fromNodeRef = "" → eR.fromNodeID = e.fromNodeID) ∧
    (e.fromNodeRef ≠ "" → m e.fromNodeRef = some eR.fromNodeID) ∧
    (e.toNodeRef = "" → eR.toNodeID = e.toNodeID) ∧
    (e.toNodeRef ≠ "" → m e.toNodeRef = some eR.toNodeID)

/-! ## Concrete inputs used by the witness theorems -/

/-- A graph `g` with nodes `q1,q2,q3` and edges `q1→q2`, `q2→q3`. -/
def dbW2 : DB :=
  { nodeRows := [⟨"q1", "g", "{}"⟩, ⟨"q2", "g", "{}"⟩, ⟨"q3", "g", "{}"⟩],
    edgeRows := [⟨"e1", "g", "q1", "q2", "{}"⟩, ⟨"e2", "g", "q2", "q3", "{}"⟩] }

/-- The candidate edge `q3→q1` that closes the cycle. -/
def edgeW2 : Edge := ⟨"", "q3", "q1", "", "", "{}"⟩

/-- A generator with distinct first outputs. -/
def genW : Nat → String := fun k => if k = 0 then "u0" else "u1"

/-- The spec's round-trip input: two ref-labelled nodes and one edge wired
by refs. -/
def dW3 : DAG :=
  ⟨"g", [⟨"", "a", "D1"⟩, ⟨"", "b", "D2"⟩], [⟨"", "", "", "a", "b", "D3"⟩]⟩

/-- First replace-graph payload. -/
def dW4a : DAG := ⟨"g", [⟨"a", "", "{}"⟩], []⟩

/-- Second replace-graph payload with a disjoint node set. -/
def dW4b : DAG := ⟨"g", [⟨"b", "", "{}"⟩], []⟩

/-- An input whose edge references the undeclared ref `zz`. -/
def dW5 : DAG :=
  ⟨"g", [⟨"", "a", "{}"⟩], [⟨"", "", "", "a", "zz", "{}"⟩]⟩

/-- An edge that carries both a from id (`X`) and a from ref (`a`). -/
def dW7 : DAG :=
  ⟨"g", [⟨"N", "a", "{}"⟩, ⟨"M", "", "{}"⟩], [⟨"e1", "X", "M", "a", "", "{}"⟩]⟩

/-- Nodes `a,b,c` with edges `a→b` (`x1`) and `b→c` (`x2`). -/
def dbW8 : DB :=
  { nodeRows := [⟨"a", "g", "{}"⟩, ⟨"b", "g", "{}"⟩, ⟨"c", "g", "{}"⟩],
    edgeRows := [⟨"x1", "g", "a", "b", "{}"⟩, ⟨"x2", "g", "b", "c", "{}"⟩] }

/-- Two nodes and no edges: the base state of the concurrency race. -/
def dbW9 : DB := ⟨[⟨"q1", "g", "{}"⟩, ⟨"q2", "g", "{}"⟩], []⟩

/-- First racing edge `q1→q2`. -/
def eW9a : Edge := ⟨"ea", "q1", "q2", "", "", "{}"⟩

/-- Second racing edge `q2→q1`. -/
def eW9b : Edge := ⟨"eb", "q2", "q1", "", "", "{}"⟩

/-- Two nodes declaring the same ref `a`; the edge uses the ref. -/
def dW10 : DAG :=
  ⟨"g", [⟨"", "a", "{}"⟩, ⟨"", "a", "{}"⟩], [⟨"", "", "Z", "a", "", "{}"⟩]⟩

/-- `CreateDAG` result for `dW3` under `genW`. -/
def outW3 : DAG :=
  ⟨"g", [⟨"u0", "", "D1"⟩, ⟨"u1", "", "D2"⟩], [⟨"u1", "u0", "u1", "", "", "D3"⟩]⟩

/-- `CreateDAG` result for `dW7` under `genW`. -/
def outW7 : DAG :=
  ⟨"g", [⟨"N", "", "{}"⟩, ⟨"M", "", "{}"⟩], [⟨"e1", "N", "M", "", "", "{}"⟩]⟩

/-- `CreateDAG` result for `dW10` under `genW`. -/
def outW10 : DAG :=
  ⟨"g", [⟨"u0", "", "{}"⟩, ⟨"u1", "", "{}"⟩], [⟨"u1", "u1", "Z", "", "", "{}"⟩]⟩

/-- How one completed `dfs` run moves the state table: each node is either
untouched or promoted from unvisited straight to done. -/
def Evolves (st st' : DfsState) : Prop :=
  ∀ x, st' x = st x ∨ (st x = 0 ∧ st' x = 2)

/-- The number of unvisited entries of the state table, over the key list. -/
def unvisitedCount (st : DfsState) (keys : List String) : Nat :=
  keys.countP fun k => st k == 0

/-- Every adjacency-list target is a key of the state table. -/
def AdjClosed (adj : String → List String) (keys : List String) : Prop :=
  ∀ u v, v ∈ adj u → v ∈ keys

/-- No cycle is reachable from `u` in the adjacency graph. -/
def SafeFrom (adj : String → List String) (u : String) : Prop :=
  ∀ z, Relation.ReflTransGen (fun a b => b ∈ adj a) u z →
    ¬ Relation.TransGen (fun a b => b ∈ adj a) z z

/-- Every done node of the state table has no reachable cycle. -/
def GoodDone (adj : String → List String) (st : DfsState) : Prop :=
  ∀ x, st x = 2 → SafeFrom adj x

/-! # Verification

Depth-first-search lemmas behind the cycle validator, then store-operation
lemmas, then the claim theorems. -/

theorem setState_self (st : DfsState) (k : String) (v : Nat) : setState st k v k = v := by
  simp [setState]

theorem setState_ne (st : DfsState) (k : String) (v : Nat) (x : String) (h : x ≠ k) :
    setState st k v x = st x := by
  simp [setState, h]

theorem evolves_rfl (st : DfsState) : Evolves st st := fun _ => Or.inl rfl

theorem evolves_trans {st1 st2 st3 : DfsState} (h1 : Evolves st1 st2)
    (h2 : Evolves st2 st3) : Evolves st1 st3 := by
  intro x
  have a := h1 x
  have b := h2 x
  omega

theorem countP_lt_of_mem {α : Type} {p q : α → Bool} {u : α}
    (hq : q u = true) (hp : p u = false) (himp : ∀ a, p a = true → q a = true) :
    ∀ l : List α, u ∈ l → l.countP p < l.countP q := by
  intro l
  induction l with
  | nil => intro h; cases h
  | cons a l ih =>
    intro hmem
    rw [List.countP_cons, List.countP_cons]
    have hle : l.countP p ≤ l.countP q := List.countP_mono_left fun a _ => himp a
    rcases List.mem_cons.mp hmem with rfl | hmem'
    · rw [hp, hq]
      simp only [Bool.false_eq_true, if_false, if_true]
      omega
    · have hlt := ih hmem'
      have hhead : (if p a = true then 1 else 0) ≤ if q a = true then 1 else 0 := by
        by_cases h : p a = true
        · rw [if_pos h, if_pos (himp a h)]
        · rw [if_neg h]; omega
      omega

theorem unvisitedCount_le_of_evolves {st st' : DfsState} (keys : List String)
    (h : Evolves st st') : unvisitedCount st' keys ≤ unvisitedCount st keys := by
  apply List.countP_mono_left
  intro a _ ha
  have ha' : st' a = 0 := by simpa using ha
  have := h a
  simp only [beq_iff_eq]
  omega

theorem unvisitedCount_setOne_lt {st : DfsState} {keys : List String} {u : String}
    (hu : u ∈ keys) (h0 : st u = 0) :
    unvisitedCount (setState st u 1) keys < unvisitedCount st keys := by
  apply countP_lt_of_mem (u := u) _ _ _ _ hu
  · simpa using h0
  · simp [setState]
  · intro a ha
    have ha' : setState st u 1 a = 0 := by simpa using ha
    by_cases hx : a = u
    · subst hx; rw [setState_self] at ha'; omega
    · rw [setState_ne st u 1 a hx] at ha'; simpa using ha'

/-- Evolution of the state through one successor scan: nodes other than the
current one are untouched or promoted to done; the current node ends done. -/
theorem dfsStep_false_spec (visit : DfsState → String → Option (Bool × DfsState)) (u : String)
    (hvisit : ∀ st v st', st v = 0 → visit st v = some (false, st') →
      Evolves st st' ∧ st' v = 2) :
    ∀ (l : List String) (st st' : DfsState), st u = 1 →
      dfsStep visit u st l = some (false, st') →
      (∀ x, x ≠ u → (st' x = st x ∨ (st x = 0 ∧ st' x = 2))) ∧ st' u = 2 := by
  intro l
  induction l with
  | nil =>
    intro st st' hu h
    simp only [dfsStep, Option.some.injEq, Prod.mk.injEq, true_and] at h
    subst h
    exact ⟨fun x hx => Or.inl (setState_ne st u 2 x hx), setState_self st u 2⟩
  | cons next rest ih =>
    intro st st' hu h
    rw [dfsStep] at h
    by_cases h1 : st next = 1
    · rw [if_pos h1] at h
      simp at h
    · rw [if_neg h1] at h
      by_cases h0 : st next = 0
      · rw [if_pos h0] at h
        rcases hv : visit st next with - | ⟨b, st1⟩
        · rw [hv] at h; simp at h
        · rw [hv] at h
          cases b
          · obtain ⟨hev, hn2⟩ := hvisit st next st1 h0 hv
            have hu1 : st1 u = 1 := by have := hev u; omega
            obtain ⟨hoth, hu2⟩ := ih st1 st' hu1 h
            refine ⟨fun x hx => ?_, hu2⟩
            have a1 := hev x
            have a2 := hoth x hx
            omega
          · simp at h
      · rw [if_neg h0] at h
        exact ih st st' hu h

/-- Evolution of the state through one completed `dfs` call. -/
theorem dfsVisit_false_spec (adj : String → List String) :
    ∀ (fuel : Nat) (st : DfsState) (u : String) (st' : DfsState), st u = 0 →
      dfsVisit adj fuel st u = some (false, st') → Evolves st st' ∧ st' u = 2 := by
  intro fuel
  induction fuel with
  | zero => intro st u st' _ h; simp [dfsVisit] at h
  | succ fuel ih =>
    intro st u st' hu h
    rw [dfsVisit] at h
    have hst1 : setState st u 1 u = 1 := setState_self st u 1
    obtain ⟨hoth, hu2⟩ :=
      dfsStep_false_spec (dfsVisit adj fuel) u (fun st v st' => ih st v st')
        (adj u) (setState st u 1) st' hst1 h
    refine ⟨fun x => ?_, hu2⟩
    by_cases hx : x = u
    · subst hx; right; exact ⟨hu, hu2⟩
    · have := hoth x hx
      rw [setState_ne st u 1 x hx] at this
      exact this

/-- With fuel exceeding the number of unvisited keys, `dfs` cannot run out
(each call permanently promotes one unvisited key). -/
theorem dfsVisit_ne_none (adj : String → List String) (keys : List String)
    (hclosed : AdjClosed adj keys) :
    ∀ (fuel : Nat) (st : DfsState) (u : String), u ∈ keys → st u = 0 →
      unvisitedCount st keys < fuel → dfsVisit adj fuel st u ≠ none := by
  intro fuel
  induction fuel with
  | zero => intro st u _ _ hcnt; exact absurd hcnt (by omega)
  | succ fuel ih =>
    intro st u hu h0 hcnt
    rw [dfsVisit]
    have hlt : unvisitedCount (setState st u 1) keys < fuel := by
      have := unvisitedCount_setOne_lt hu h0
      omega
    have hstep : ∀ (l : List String) (st1 : DfsState),
        (∀ v ∈ l, v ∈ keys) → unvisitedCount st1 keys < fuel →
        dfsStep (dfsVisit adj fuel) u st1 l ≠ none := by
      intro l
      induction l with
      | nil => intro st1 _ _ h; simp [dfsStep] at h
      | cons next rest ihl =>
        intro st1 hmem hcnt1 h
        rw [dfsStep] at h
        by_cases h1 : st1 next = 1
        · rw [if_pos h1] at h; simp at h
        · rw [if_neg h1] at h
          by_cases hz : st1 next = 0
          · rw [if_pos hz] at h
            rcases hv : dfsVisit adj fuel st1 next with - | ⟨b, st2⟩
            · exact ih st1 next (hmem next (List.mem_cons_self next rest)) hz hcnt1 hv
            · rw [hv] at h
              cases b
              · obtain ⟨hev, -⟩ := dfsVisit_false_spec adj fuel st1 next st2 hz hv
                have hle : unvisitedCount st2 keys ≤ unvisitedCount st1 keys :=
                  unvisitedCount_le_of_evolves keys hev
                exact ihl st2 (fun v hvm => hmem v (List.mem_cons_of_mem _ hvm)) (by omega) h
              · simp at h
          · rw [if_neg hz] at h
            exact ihl st1 (fun v hvm => hmem v (List.mem_cons_of_mem _ hvm)) hcnt1 h
    intro h
    exact hstep (adj u) (setState st u 1) (fun v hv => hclosed u v hv) hlt h

/-- A `true` result of the successor scan exhibits a cycle, given that every
visiting node reaches the scanned node (the visiting nodes are the DFS
stack). -/
theorem dfsStep_true_sound (adj : String → List String) (fuel : Nat)
    (hvisit : ∀ (st : DfsState) (v : String) (stf : DfsState),
      (∀ x, st x = 1 → Relation.ReflTransGen (fun a b => b ∈ adj a) x v) →
      dfsVisit adj fuel st v = some (true, stf) →
      ∃ z, Relation.TransGen (fun a b => b ∈ adj a) z z) :
    ∀ (u : String) (l : List String) (st stf : DfsState), st u = 1 →
      (∀ v ∈ l, v ∈ adj u) →
      (∀ x, st x = 1 → Relation.ReflTransGen (fun a b => b ∈ adj a) x u) →
      dfsStep (dfsVisit adj fuel) u st l = some (true, stf) →
      ∃ z, Relation.TransGen (fun a b => b ∈ adj a) z z := by
  intro u l
  induction l with
  | nil =>
    intro st stf _ _ _ h
    simp [dfsStep] at h
  | cons next rest ihl =>
    intro st stf hu hmem hgray h
    have hRnext : next ∈ adj u := hmem next (List.mem_cons_self next rest)
    rw [dfsStep] at h
    by_cases h1 : st next = 1
    · exact ⟨next, Relation.TransGen.tail' (hgray next h1) hRnext⟩
    · rw [if_neg h1] at h
      by_cases h0 : st next = 0
      · rw [if_pos h0] at h
        rcases hv : dfsVisit adj fuel st next with - | ⟨b, st1⟩
        · rw [hv] at h; simp at h
        · rw [hv] at h
          cases b
          · obtain ⟨hev, -⟩ := dfsVisit_false_spec adj fuel st next st1 h0 hv
            have hu1 : st1 u = 1 := by have := hev u; omega
            apply ihl st1 stf hu1 (fun v hvm => hmem v (List.mem_cons_of_mem _ hvm)) ?_ h
            intro x hx
            have hevx := hev x
            have hx' : st x = 1 := by omega
            exact hgray x hx'
          · exact hvisit st next st1
              (fun x hx => Relation.ReflTransGen.tail (hgray x hx) hRnext) hv
      · rw [if_neg h0] at h
        exact ihl st stf hu (fun v hvm => hmem v (List.mem_cons_of_mem _ hvm)) hgray h

/-- A `true` result of `dfs` exhibits a cycle. -/
theorem dfsVisit_true_sound (adj : String → List String) :
    ∀ (fuel : Nat) (st : DfsState) (u : String) (stf : DfsState),
      (∀ x, st x = 1 → Relation.ReflTransGen (fun a b => b ∈ adj a) x u) →
      dfsVisit adj fuel st u = some (true, stf) →
      ∃ z, Relation.TransGen (fun a b => b ∈ adj a) z z := by
  intro fuel
  induction fuel with
  | zero => intro st u stf _ h; simp [dfsVisit] at h
  | succ fuel ih =>
    intro st u stf hgray h
    rw [dfsVisit] at h
    apply dfsStep_true_sound adj fuel ih u (adj u) (setState st u 1) stf
      (setState_self st u 1) (fun v hv => hv) ?_ h
    intro x hx
    by_cases hxu : x = u
    · subst hxu; exact Relation.ReflTransGen.refl
    · rw [setState_ne st u 1 x hxu] at hx
      exact hgray x hx

/-- If the successor scan completes without reporting a cycle, every done
node (including the freshly finished one) still has no reachable cycle. -/
theorem dfsStep_good (adj : String → List String) (fuel : Nat)
    (hvisit : ∀ (st : DfsState) (v : String) (stf : DfsState), st v = 0 →
      (∀ x, st x ≤ 2) → GoodDone adj st →
      dfsVisit adj fuel st v = some (false, stf) →
      GoodDone adj stf ∧ (∀ x, stf x ≤ 2)) :
    ∀ (u : String) (l : List String) (st stf : DfsState), st u = 1 →
      (∀ x, st x ≤ 2) → GoodDone adj st →
      (∀ v ∈ adj u, v ∈ l ∨ st v = 2) →
      dfsStep (dfsVisit adj fuel) u st l = some (false, stf) →
      GoodDone adj stf ∧ (∀ x, stf x ≤ 2) := by
  intro u l
  induction l with
  | nil =>
    intro st stf hu hb hg hadj h
    simp only [dfsStep, Option.some.injEq, Prod.mk.injEq, true_and] at h
    subst h
    have hdone : ∀ v ∈ adj u, st v = 2 := by
      intro v hv
      rcases hadj v hv with hin | h2
      · cases hin
      · exact h2
    have hsafe : SafeFrom adj u := by
      intro z hz hcyc
      rcases Relation.ReflTransGen.cases_head hz with heq | ⟨v, hRv, hvz⟩
      · subst heq
        obtain ⟨v, hRv, hvu⟩ := Relation.TransGen.head'_iff.mp hcyc
        exact hg v (hdone v hRv) u hvu hcyc
      · exact hg v (hdone v hRv) z hvz hcyc
    refine ⟨?_, ?_⟩
    · intro x hx
      by_cases hxu : x = u
      · subst hxu; exact hsafe
      · rw [setState_ne st u 2 x hxu] at hx
        exact hg x hx
    · intro x
      by_cases hxu : x = u
      · subst hxu; rw [setState_self]
      · rw [setState_ne st u 2 x hxu]; exact hb x
  | cons next rest ihl =>
    intro st stf hu hb hg hadj h
    rw [dfsStep] at h
    by_cases h1 : st next = 1
    · rw [if_pos h1] at h; simp at h
    · rw [if_neg h1] at h
      by_cases h0 : st next = 0
      · rw [if_pos h0] at h
        rcases hv : dfsVisit adj fuel st next with - | ⟨b, st1⟩
        · rw [hv] at h; simp at h
        · rw [hv] at h
          cases b
          · obtain ⟨hg1, hb1⟩ := hvisit st next st1 h0 hb hg hv
            obtain ⟨hev, hn2⟩ := dfsVisit_false_spec adj fuel st next st1 h0 hv
            have hu1 : st1 u = 1 := by have := hev u; omega
            apply ihl st1 stf hu1 hb1 hg1 ?_ h
            intro v hvadj
            rcases hadj v hvadj with hvin | hv2
            · rcases List.mem_cons.mp hvin with rfl | hvrest
              · right; exact hn2
              · left; exact hvrest
            · right; have := hev v; omega
          · simp at h
      · rw [if_neg h0] at h
        have h2 : st next = 2 := by have := hb next; omega
        apply ihl st stf hu hb hg ?_ h
        intro v hvadj
        rcases hadj v hvadj with hvin | hv2
        · rcases List.mem_cons.mp hvin with rfl | hvrest
          · right; exact h2
          · left; exact hvrest
        · right; exact hv2

/-- If `dfs` completes without reporting a cycle, done nodes have no
reachable cycle and states stay in range. -/
theorem dfsVisit_good (adj : String → List String) :
    ∀ (fuel : Nat) (st : DfsState) (u : String) (stf : DfsState), st u = 0 →
      (∀ x, st x ≤ 2) → GoodDone adj st →
      dfsVisit adj fuel st u = some (false, stf) →
      GoodDone adj stf ∧ (∀ x, stf x ≤ 2) := by
  intro fuel
  induction fuel with
  | zero => intro st u stf _ _ _ h; simp [dfsVisit] at h
  | succ fuel ih =>
    intro st u stf hu hb hg h
    rw [dfsVisit] at h
    apply dfsStep_good adj fuel ih u (adj u) (setState st u 1) stf
      (setState_self st u 1) ?_ ?_ ?_ h
    · intro x
      by_cases hx : x = u
      · subst hx; rw [setState_self]; omega
      · rw [setState_ne st u 1 x hx]; exact hb x
    · intro x hx
      by_cases hxu : x = u
      · subst hxu; rw [setState_self] at hx; exact absurd hx (by decide)
      · rw [setState_ne st u 1 x hxu] at hx; exact hg x hx
    · intro v hv; left; exact hv

/-- The driver loop cannot run out of fuel when fuel exceeds the number of
unvisited keys. -/
theorem validateLoop_ne_none (adj : String → List String) (keys : List String)
    (hclosed : AdjClosed adj keys) (fuel : Nat) :
    ∀ (ks : List String) (st : DfsState), (∀ k ∈ ks, k ∈ keys) →
      unvisitedCount st keys < fuel →
      validateLoop adj fuel st ks ≠ none := by
  intro ks
  induction ks with
  | nil => intro st _ _ h; simp [validateLoop] at h
  | cons k rest ih =>
    intro st hmem hcnt h
    rw [validateLoop] at h
    by_cases h0 : st k = 0
    · rw [if_pos h0] at h
      rcases hv : dfsVisit adj fuel st k with - | ⟨b, st1⟩
      · exact dfsVisit_ne_none adj keys hclosed fuel st k
          (hmem k (List.mem_cons_self k rest)) h0 hcnt hv
      · rw [hv] at h
        cases b
        · obtain ⟨hev, -⟩ := dfsVisit_false_spec adj fuel st k st1 h0 hv
          have := unvisitedCount_le_of_evolves keys hev
          exact ih st1 (fun v hvm => hmem v (List.mem_cons_of_mem _ hvm)) (by omega) h
        · simp at h
    · rw [if_neg h0] at h
      exact ih st (fun v hvm => hmem v (List.mem_cons_of_mem _ hvm)) hcnt h

/-- A `true` outcome of the driver loop exhibits a cycle. -/
theorem validateLoop_true_sound (adj : String → List String) (fuel : Nat) :
    ∀ (ks : List String) (st stf : DfsState), (∀ x, st x ≠ 1) →
      validateLoop adj fuel st ks = some (true, stf) →
      ∃ z, Relation.TransGen (fun a b => b ∈ adj a) z z := by
  intro ks
  induction ks with
  | nil => intro st stf _ h; simp [validateLoop] at h
  | cons k rest ih =>
    intro st stf hng h
    rw [validateLoop] at h
    by_cases h0 : st k = 0
    · rw [if_pos h0] at h
      rcases hv : dfsVisit adj fuel st k with - | ⟨b, st1⟩
      · rw [hv] at h; simp at h
      · rw [hv] at h
        cases b
        · obtain ⟨hev, -⟩ := dfsVisit_false_spec adj fuel st k st1 h0 hv
          apply ih st1 stf ?_ h
          intro x hx
          have := hev x
          exact hng x (by omega)
        · exact dfsVisit_true_sound adj fuel st k st1
            (fun x hx => absurd hx (hng x)) hv
    · rw [if_neg h0] at h
      exact ih st stf hng h

/-- A `false` outcome of the driver loop only promotes states. -/
theorem validateLoop_false_evolves (adj : String → List String) (fuel : Nat) :
    ∀ (ks : List String) (st stf : DfsState),
      validateLoop adj fuel st ks = some (false, stf) → Evolves st stf := by
  intro ks
  induction ks with
  | nil =>
    intro st stf h
    simp only [validateLoop, Option.some.injEq, Prod.mk.injEq, true_and] at h
    subst h
    exact evolves_rfl _
  | cons k rest ih =>
    intro st stf h
    rw [validateLoop] at h
    by_cases h0 : st k = 0
    · rw [if_pos h0] at h
      rcases hv : dfsVisit adj fuel st k with - | ⟨b, st1⟩
      · rw [hv] at h; simp at h
      · rw [hv] at h
        cases b
        · obtain ⟨hev, -⟩ := dfsVisit_false_spec adj fuel st k st1 h0 hv
          exact evolves_trans hev (ih st1 stf h)
        · simp at h
    · rw [if_neg h0] at h
      exact ih st stf h

/-- A `false` outcome of the driver loop leaves every scanned key done,
with all done nodes cycle-free. -/
theorem validateLoop_false_good (adj : String → List String) (fuel : Nat) :
    ∀ (ks : List String) (st stf : DfsState),
      (∀ x, st x ≤ 2) → GoodDone adj st → (∀ x, st x ≠ 1) →
      validateLoop adj fuel st ks = some (false, stf) →
      GoodDone adj stf ∧ (∀ k ∈ ks, stf k = 2) := by
  intro ks
  induction ks with
  | nil =>
    intro st stf _ hg _ h
    simp only [validateLoop, Option.some.injEq, Prod.mk.injEq, true_and] at h
    subst h
    exact ⟨hg, by simp⟩
  | cons k rest ih =>
    intro st stf hb hg hng h
    rw [validateLoop] at h
    by_cases h0 : st k = 0
    · rw [if_pos h0] at h
      rcases hv : dfsVisit adj fuel st k with - | ⟨b, st1⟩
      · rw [hv] at h; simp at h
      · rw [hv] at h
        cases b
        · obtain ⟨hg1, hb1⟩ := dfsVisit_good adj fuel st k st1 h0 hb hg hv
          obtain ⟨hev, hk2⟩ := dfsVisit_false_spec adj fuel st k st1 h0 hv
          have hng1 : ∀ x, st1 x ≠ 1 := by
            intro x hx
            have := hev x
            exact hng x (by omega)
          obtain ⟨hgf, hrest⟩ := ih st1 stf hb1 hg1 hng1 h
          have hevf := validateLoop_false_evolves adj fuel rest st1 stf h
          refine ⟨hgf, ?_⟩
          intro x hx
          rcases List.mem_cons.mp hx with rfl | hxrest
          · have := hevf x; omega
          · exact hrest x hxrest
        · simp at h
    · rw [if_neg h0] at h
      have hk2 : st k = 2 := by
        have := hb k
        have := hng k
        omega
      obtain ⟨hgf, hrest⟩ := ih st stf hb hg hng h
      have hevf := validateLoop_false_evolves adj fuel rest st stf h
      refine ⟨hgf, ?_⟩
      intro x hx
      rcases List.mem_cons.mp hx with rfl | hxrest
      · have := hevf x; omega
      · exact hrest x hxrest

/-- Adjacency membership coincides with the edge-step relation. -/
theorem mem_adjOf_iff {edges : List Edge} {u v : String} :
    v ∈ adjOf edges u ↔ edgeStep edges u v := by
  simp only [adjOf, List.mem_map, List.mem_filter, edgeStep, decide_eq_true_eq]
  constructor
  · rintro ⟨e, ⟨he, hfrom⟩, hto⟩
    exact ⟨e, he, hfrom, hto⟩
  · rintro ⟨e, he, hfrom, hto⟩
    exact ⟨e, ⟨he, hfrom⟩, hto⟩

/-- The cycle predicate transfers between the edge-step relation and the
validator's adjacency function. -/
theorem hasCycle_iff_adj (edges : List Edge) :
    hasCycle edges ↔ ∃ z, Relation.TransGen (fun a b => b ∈ adjOf edges a) z z := by
  constructor
  · rintro ⟨u, h⟩
    exact ⟨u, Relation.TransGen.mono (fun a b hab => mem_adjOf_iff.mpr hab) h⟩
  · rintro ⟨u, h⟩
    exact ⟨u, Relation.TransGen.mono (fun a b hab => mem_adjOf_iff.mp hab) h⟩

/-- Every adjacency target is a key of the state table. -/
theorem adjOf_closed (nodes : List Node) (edges : List Edge) :
    AdjClosed (adjOf edges) (stateKeys nodes edges) := by
  intro u v hv
  obtain ⟨e, he, -, hto⟩ := mem_adjOf_iff.mp hv
  unfold stateKeys
  exact List.mem_append.mpr (Or.inr (List.mem_map.mpr ⟨e, he, hto⟩))

/-- The source of any edge is a key of the state table. -/
theorem from_mem_stateKeys {nodes : List Node} {edges : List Edge} {e : Edge}
    (he : e ∈ edges) : e.fromNodeID ∈ stateKeys nodes edges := by
  unfold stateKeys
  exact List.mem_append.mpr
    (Or.inl (List.mem_append.mpr (Or.inr (List.mem_map.mpr ⟨e, he, rfl⟩))))

/-- On the all-unvisited initial table, the unvisited count is the number of
keys. -/
theorem unvisitedCount_zero_state (keys : List String) :
    unvisitedCount (fun _ => 0) keys = keys.length := by
  unfold unvisitedCount
  rw [List.countP_eq_length]
  intro a _
  simp

/-- The central validator correctness: `validateAcyclic` reports the cycle
error exactly when the edge list has a directed cycle. -/
theorem validateAcyclic_error_iff (nodes : List Node) (edges : List Edge) :
    validateAcyclic nodes edges = Except.error DagError.cycleDetected ↔ hasCycle edges := by
  have hclosed : AdjClosed (adjOf edges) (stateKeys nodes edges) := adjOf_closed nodes edges
  have hcnt : unvisitedCount (fun _ => 0) (stateKeys nodes edges) <
      (stateKeys nodes edges).length + 1 := by
    rw [unvisitedCount_zero_state]; omega
  unfold validateAcyclic
  rcases hloop : validateLoop (adjOf edges) ((stateKeys nodes edges).length + 1)
      (fun _ => 0) (stateKeys nodes edges) with - | ⟨b, stf⟩
  · exact absurd hloop (validateLoop_ne_none (adjOf edges) (stateKeys nodes edges) hclosed
      ((stateKeys nodes edges).length + 1) (stateKeys nodes edges) (fun _ => 0)
      (fun _ hk => hk) hcnt)
  · cases b
    · show Except.ok () = Except.error DagError.cycleDetected ↔ hasCycle edges
      constructor
      · intro h
        exact absurd h (by simp)
      · intro hcyc
        exfalso
        obtain ⟨hg, hdone⟩ := validateLoop_false_good (adjOf edges)
          ((stateKeys nodes edges).length + 1) (stateKeys nodes edges)
          (fun _ => 0) stf (fun _ => by simp) (fun x hx => absurd hx (by simp))
          (fun x => by simp) hloop
        obtain ⟨z, htrans⟩ := (hasCycle_iff_adj edges).mp hcyc
        obtain ⟨v, hzv, -⟩ := Relation.TransGen.head'_iff.mp htrans
        obtain ⟨e, he, hfrom, -⟩ := mem_adjOf_iff.mp hzv
        have hz : z ∈ stateKeys nodes edges := by
          rw [← hfrom]
          exact from_mem_stateKeys he
        exact hg z (hdone z hz) z Relation.ReflTransGen.refl htrans
    · show Except.error DagError.cycleDetected = Except.error DagError.cycleDetected ↔
        hasCycle edges
      constructor
      · intro _
        refine (hasCycle_iff_adj edges).mpr ?_
        exact validateLoop_true_sound (adjOf edges) ((stateKeys nodes edges).length + 1)
          (stateKeys nodes edges) (fun _ => 0) stf (fun x => by simp) hloop
      · intro _
        rfl

/-- `validateAcyclic` only ever returns success or the cycle sentinel. -/
theorem validateAcyclic_total (nodes : List Node) (edges : List Edge) :
    validateAcyclic nodes edges = Except.ok () ∨
      validateAcyclic nodes edges = Except.error DagError.cycleDetected := by
  unfold validateAcyclic
  rcases validateLoop (adjOf edges) ((stateKeys nodes edges).length + 1)
      (fun _ => 0) (stateKeys nodes edges) with - | ⟨b, stf⟩
  · right; rfl
  · cases b
    · left; rfl
    · right; rfl

/-- `validateAcyclic` succeeds exactly on acyclic edge lists. -/
theorem validateAcyclic_ok_iff (nodes : List Node) (edges : List Edge) :
    validateAcyclic nodes edges = Except.ok () ↔ ¬ hasCycle edges := by
  constructor
  · intro h hcyc
    have herr := (validateAcyclic_error_iff nodes edges).mpr hcyc
    rw [h] at herr
    exact absurd herr (by simp)
  · intro hnc
    rcases validateAcyclic_total nodes edges with h | h
    · exact h
    · exact absurd ((validateAcyclic_error_iff nodes edges).mp h) hnc

/-! ## Reference-resolution lemmas -/

/-- The node loop relates input and output nodes pointwise. -/
theorem assignNodes_forall₂ (gen : Nat → String) :
    ∀ (k : Nat) (ns : List Node),
      List.Forall₂ (NodeAssigned gen) ns (assignNodes gen k ns).1 := by
  intro k ns
  induction ns generalizing k with
  | nil => exact List.Forall₂.nil
  | cons n ns ih =>
    rw [assignNodes]
    by_cases h : n.id = ""
    · rw [if_pos h]
      exact List.Forall₂.cons ⟨rfl, rfl, Or.inl ⟨h, k, rfl⟩⟩ (ih (k + 1))
    · rw [if_neg h]
      exact List.Forall₂.cons ⟨rfl, rfl, Or.inr ⟨h, rfl⟩⟩ (ih k)

/-- What a successful from-ref resolution does to the edge. -/
theorem resolveFrom_ok (m : String → Option String) (e e1 : Edge)
    (h : resolveFrom m e = Except.ok e1) :
    e1.id = e.id ∧ e1.toNodeID = e.toNodeID ∧ e1.fromNodeRef = e.fromNodeRef ∧
      e1.toNodeRef = e.toNodeRef ∧ e1.data = e.data ∧
      (e.fromNodeRef = "" → e1.fromNodeID = e.fromNodeID) ∧
      (e.fromNodeRef ≠ "" → m e.fromNodeRef = some e1.fromNodeID) := by
  unfold resolveFrom at h
  by_cases hr : e.fromNodeRef = ""
  · rw [if_pos hr] at h
    simp only [Except.ok.injEq] at h
    subst h
    exact ⟨rfl, rfl, rfl, rfl, rfl, fun _ => rfl, fun hn => absurd hr hn⟩
  · rw [if_neg hr] at h
    rcases hm : m e.fromNodeRef with - | nid
    · rw [hm] at h; simp at h
    · rw [hm] at h
      simp only [Except.ok.injEq] at h
      subst h
      exact ⟨rfl, rfl, rfl, rfl, rfl, fun hh => absurd hh hr, fun _ => rfl⟩

/-- What a successful to-ref resolution does to the edge. -/
theorem resolveTo_ok (m : String → Option String) (e e1 : Edge)
    (h : resolveTo m e = Except.ok e1) :
    e1.id = e.id ∧ e1.fromNodeID = e.fromNodeID ∧ e1.fromNodeRef = e.fromNodeRef ∧
      e1.toNodeRef = e.toNodeRef ∧ e1.data = e.data ∧
      (e.toNodeRef = "" → e1.toNodeID = e.toNodeID) ∧
      (e.toNodeRef ≠ "" → m e.toNodeRef = some e1.toNodeID) := by
  unfold resolveTo at h
  by_cases hr : e.toNodeRef = ""
  · rw [if_pos hr] at h
    simp only [Except.ok.injEq] at h
    subst h
    exact ⟨rfl, rfl, rfl, rfl, rfl, fun _ => rfl, fun hn => absurd hr hn⟩
  · rw [if_neg hr] at h
    rcases hm : m e.toNodeRef with - | nid
    · rw [hm] at h; simp at h
    · rw [hm] at h
      simp only [Except.ok.injEq] at h
      subst h
      exact ⟨rfl, rfl, rfl, rfl, rfl, fun hh => absurd hh hr, fun _ => rfl⟩

/-- A failing from-ref resolution names the nonempty unresolvable ref. -/
theorem resolveFrom_error (m : String → Option String) (e : Edge) (err : DagError)
    (h : resolveFrom m e = Except.error err) :
    err = DagError.unknownFromRef e.fromNodeRef ∧ e.fromNodeRef ≠ "" ∧
      m e.fromNodeRef = none := by
  unfold resolveFrom at h
  by_cases hr : e.fromNodeRef = ""
  · rw [if_pos hr] at h; simp at h
  · rw [if_neg hr] at h
    rcases hm : m e.fromNodeRef with - | nid
    · rw [hm] at h
      simp only [Except.error.injEq] at h
      exact ⟨h.symm, hr, rfl⟩
    · rw [hm] at h; simp at h

/-- A failing to-ref resolution names the nonempty unresolvable ref. -/
theorem resolveTo_error (m : String → Option String) (e : Edge) (err : DagError)
    (h : resolveTo m e = Except.error err) :
    err = DagError.unknownToRef e.toNodeRef ∧ e.toNodeRef ≠ "" ∧
      m e.toNodeRef = none := by
  unfold resolveTo at h
  by_cases hr : e.toNodeRef = ""
  · rw [if_pos hr] at h; simp at h
  · rw [if_neg hr] at h
    rcases hm : m e.toNodeRef with - | nid
    · rw [hm] at h
      simp only [Except.error.injEq] at h
      exact ⟨h.symm, hr, rfl⟩
    · rw [hm] at h; simp at h

/-- An unresolvable nonempty from ref makes `resolveFrom` fail. -/
theorem resolveFrom_error_of (m : String → Option String) (e : Edge)
    (hr : e.fromNodeRef ≠ "") (hm : m e.fromNodeRef = none) :
    resolveFrom m e = Except.error (DagError.unknownFromRef e.fromNodeRef) := by
  unfold resolveFrom
  rw [if_neg hr, hm]

/-- An unresolvable nonempty to ref makes `resolveTo` fail. -/
theorem resolveTo_error_of (m : String → Option String) (e : Edge)
    (hr : e.toNodeRef ≠ "") (hm : m e.toNodeRef = none) :
    resolveTo m e = Except.error (DagError.unknownToRef e.toNodeRef) := by
  unfold resolveTo
  rw [if_neg hr, hm]

/-- One step of the edge loop, on success, realizes `EdgeResolved`. -/
theorem resolveEdge_step_ok (m : String → Option String) (gen : Nat → String) (k : Nat)
    (e e1 e2 : Edge)
    (hf : resolveFrom m (if e.id = "" then { e with id := gen k } else e) = Except.ok e1)
    (ht : resolveTo m e1 = Except.ok e2) : EdgeResolved m gen e e2 := by
  obtain ⟨ht1, ht2, ht3, ht4, ht5, ht6, ht7⟩ := resolveTo_ok m e1 e2 ht
  by_cases hid : e.id = ""
  · rw [if_pos hid] at hf
    obtain ⟨hf1, hf2, hf3, hf4, hf5, hf6, hf7⟩ := resolveFrom_ok m _ e1 hf
    dsimp only at hf1 hf2 hf3 hf4 hf5 hf6 hf7
    refine ⟨ht3.trans hf3, ht4.trans hf4, ht5.trans hf5,
      Or.inl ⟨hid, k, ht1.trans hf1⟩, ?_, ?_, ?_, ?_⟩
    · intro hfr
      exact ht2.trans (hf6 hfr)
    · intro hfr
      rw [hf7 hfr, ht2]
    · intro htr
      exact (ht6 (hf4.trans htr)).trans hf2
    · intro htr
      rw [← hf4]
      exact ht7 (by rw [hf4]; exact htr)
  · rw [if_neg hid] at hf
    obtain ⟨hf1, hf2, hf3, hf4, hf5, hf6, hf7⟩ := resolveFrom_ok m _ e1 hf
    refine ⟨ht3.trans hf3, ht4.trans hf4, ht5.trans hf5,
      Or.inr ⟨hid, ht1.trans hf1⟩, ?_, ?_, ?_, ?_⟩
    · intro hfr
      exact ht2.trans (hf6 hfr)
    · intro hfr
      rw [hf7 hfr, ht2]
    · intro htr
      exact (ht6 (hf4.trans htr)).trans hf2
    · intro htr
      rw [← hf4]
      exact ht7 (by rw [hf4]; exact htr)

/-- The edge loop relates input and output edges pointwise on success. -/
theorem resolveEdges_ok_forall₂ (m : String → Option String) (gen : Nat → String) :
    ∀ (k : Nat) (es : List Edge) (res : List Edge × Nat),
      resolveEdges m gen k es = Except.ok res →
      List.Forall₂ (EdgeResolved m gen) es res.1 := by
  intro k es
  induction es generalizing k with
  | nil =>
    intro res h
    simp only [resolveEdges, Except.ok.injEq] at h
    subst h
    exact List.Forall₂.nil
  | cons e es ih =>
    intro res h
    rw [resolveEdges] at h
    split at h
    next err heq => simp at h
    next e1 hf =>
      split at h
      next err heq => simp at h
      next e2 ht =>
        split at h
        next err heq => simp at h
        next q hq =>
          simp only [Except.ok.injEq] at h
          subst h
          exact List.Forall₂.cons (resolveEdge_step_ok m gen k e e1 e2 hf ht) (ih _ q hq)

theorem forall₂_exists_of_mem_left {α β : Type} {R : α → β → Prop} :
    ∀ {l1 : List α} {l2 : List β}, List.Forall₂ R l1 l2 →
      ∀ a ∈ l1, ∃ b ∈ l2, R a b := by
  intro l1 l2 h
  induction h with
  | nil => intro a ha; cases ha
  | @cons x y xs ys hxy htail ih =>
    intro a ha
    rcases List.mem_cons.mp ha with rfl | hmem
    · exact ⟨y, List.mem_cons_self y ys, hxy⟩
    · obtain ⟨b, hb, hr⟩ := ih a hmem
      exact ⟨b, List.mem_cons_of_mem _ hb, hr⟩

/-- A failing edge loop fails with an unknown-ref error naming a nonempty,
unresolvable ref used on that side by some input edge. -/
theorem resolveEdges_error_spec (m : String → Option String) (gen : Nat → String) :
    ∀ (k : Nat) (es : List Edge) (err : DagError),
      resolveEdges m gen k es = Except.error err →
      (∃ r, err = DagError.unknownFromRef r ∧ r ≠ "" ∧ m r = none ∧
        ∃ e ∈ es, e.fromNodeRef = r) ∨
      (∃ r, err = DagError.unknownToRef r ∧ r ≠ "" ∧ m r = none ∧
        ∃ e ∈ es, e.toNodeRef = r) := by
  intro k es
  induction es generalizing k with
  | nil => intro err h; simp [resolveEdges] at h
  | cons e es ih =>
    intro err h
    have hAf : (if e.id = "" then { e with id := gen k } else e).fromNodeRef
        = e.fromNodeRef := by
      by_cases hid : e.id = "" <;> simp [hid]
    have hAt : (if e.id = "" then { e with id := gen k } else e).toNodeRef
        = e.toNodeRef := by
      by_cases hid : e.id = "" <;> simp [hid]
    rw [resolveEdges] at h
    split at h
    next err1 hf =>
      simp only [Except.error.injEq] at h
      subst h
      obtain ⟨herr, hne, hnone⟩ := resolveFrom_error m _ err1 hf
      rw [hAf] at herr hne hnone
      left
      exact ⟨e.fromNodeRef, herr, hne, hnone, e, List.mem_cons_self e es, rfl⟩
    next e1 hf =>
      obtain ⟨-, -, -, hf4, -, -, -⟩ := resolveFrom_ok m _ e1 hf
      split at h
      next err1 ht =>
        simp only [Except.error.injEq] at h
        subst h
        obtain ⟨herr, hne, hnone⟩ := resolveTo_error m e1 err1 ht
        rw [hf4, hAt] at herr hne hnone
        right
        exact ⟨e.toNodeRef, herr, hne, hnone, e, List.mem_cons_self e es, rfl⟩
      next e2 ht =>
        split at h
        next err1 hq =>
          simp only [Except.error.injEq] at h
          subst h
          rcases ih _ err1 hq with ⟨r, h1, h2, h3, e0, he0, h4⟩ | ⟨r, h1, h2, h3, e0, he0, h4⟩
          · exact Or.inl ⟨r, h1, h2, h3, e0, List.mem_cons_of_mem _ he0, h4⟩
          · exact Or.inr ⟨r, h1, h2, h3, e0, List.mem_cons_of_mem _ he0, h4⟩
        next q hq => simp at h

/-- An edge whose nonempty ref is absent from the map makes the edge loop
fail. -/
theorem resolveEdges_error_of_unknown (m : String → Option String) (gen : Nat → String)
    (k : Nat) (es : List Edge)
    (h : ∃ e ∈ es, (e.fromNodeRef ≠ "" ∧ m e.fromNodeRef = none) ∨
      (e.toNodeRef ≠ "" ∧ m e.toNodeRef = none)) :
    ∃ err, resolveEdges m gen k es = Except.error err := by
  rcases hres : resolveEdges m gen k es with err | q
  · exact ⟨err, rfl⟩
  · exfalso
    obtain ⟨e0, he0, hbad⟩ := h
    obtain ⟨eR, -, hrel⟩ :=
      forall₂_exists_of_mem_left (resolveEdges_ok_forall₂ m gen k es q hres) e0 he0
    obtain ⟨-, -, -, -, -, hf7, -, ht7⟩ := hrel
    rcases hbad with ⟨hne, hnone⟩ | ⟨hne, hnone⟩
    · have hc := hf7 hne
      rw [hnone] at hc
      simp at hc
    · have hc := ht7 hne
      rw [hnone] at hc
      simp at hc

/-! ## Ref-map lemmas -/

/-- Peeling the last node off the ref-map fold: the last declaration wins. -/
theorem refMapOf_append (ns : List Node) (n : Node) (r : String) :
    refMapOf (ns ++ [n]) r =
      if n.ref ≠ "" ∧ r = n.ref then some n.id else refMapOf ns r := by
  unfold refMapOf
  rw [List.foldl_append]
  simp only [List.foldl_cons, List.foldl_nil]
  unfold refInsert
  by_cases h : n.ref = ""
  · rw [if_pos h, if_neg (by simp [h])]
  · rw [if_neg h]
    by_cases hr : r = n.ref
    · rw [if_pos hr, if_pos ⟨h, hr⟩]
    · rw [if_neg hr, if_neg (by simp [hr])]

/-- A successful ref lookup comes from some declaring node. -/
theorem refMapOf_some_declarer :
    ∀ (ns : List Node) (r nid : String), refMapOf ns r = some nid →
      ∃ n ∈ ns, n.ref = r ∧ n.id = nid := by
  intro ns
  induction ns using List.reverseRecOn with
  | nil => intro r nid h; simp [refMapOf] at h
  | append_singleton ns n ih =>
    intro r nid h
    rw [refMapOf_append] at h
    by_cases hc : n.ref ≠ "" ∧ r = n.ref
    · rw [if_pos hc] at h
      simp only [Option.some.injEq] at h
      exact ⟨n, by simp, hc.2.symm, h⟩
    · rw [if_neg hc] at h
      obtain ⟨n0, hmem, hr0, hid0⟩ := ih r nid h
      exact ⟨n0, List.mem_append.mpr (Or.inl hmem), hr0, hid0⟩

/-- For a nonempty label, the ref map is undefined exactly when no node
declares the label. -/
theorem refMapOf_none_iff (ns : List Node) (r : String) (hr : r ≠ "") :
    refMapOf ns r = none ↔ ¬ declaresRef ns r := by
  induction ns using List.reverseRecOn with
  | nil => simp [refMapOf, declaresRef]
  | append_singleton ns n ih =>
    rw [refMapOf_append]
    by_cases hc : n.ref ≠ "" ∧ r = n.ref
    · rw [if_pos hc]
      exact iff_of_false (by simp)
        (not_not_intro ⟨n, List.mem_append.mpr (Or.inr (by simp)), hc.2.symm⟩)
    · rw [if_neg hc, ih]
      constructor
      · intro hnd hd
        obtain ⟨n0, hmem, href⟩ := hd
        rcases List.mem_append.mp hmem with hm | hm
        · exact hnd ⟨n0, hm, href⟩
        · obtain rfl := List.mem_singleton.mp hm
          exact hc ⟨by rw [href]; exact hr, href.symm⟩
      · intro hnd hd
        obtain ⟨n0, hm, href⟩ := hd
        exact hnd ⟨n0, List.mem_append.mpr (Or.inl hm), href⟩

/-- Last declaration wins: if no node after `n` declares `n`'s label, the
label maps to `n`'s id. -/
theorem refMapOf_last_declarer :
    ∀ (l2 l1 : List Node) (n : Node) (r : String), n.ref = r → r ≠ "" →
      ¬ declaresRef l2 r → refMapOf (l1 ++ n :: l2) r = some n.id := by
  intro l2
  induction l2 using List.reverseRecOn with
  | nil =>
    intro l1 n r hn hr _
    rw [show l1 ++ n :: ([] : List Node) = l1 ++ [n] from rfl, refMapOf_append]
    rw [if_pos ⟨by rw [hn]; exact hr, hn.symm⟩]
  | append_singleton l2 mN ih =>
    intro l1 n r hn hr hnd
    rw [show l1 ++ n :: (l2 ++ [mN]) = (l1 ++ n :: l2) ++ [mN] by simp, refMapOf_append]
    have hmr : ¬(mN.ref ≠ "" ∧ r = mN.ref) := by
      rintro ⟨-, hrm⟩
      exact hnd ⟨mN, List.mem_append.mpr (Or.inr (by simp)), hrm.symm⟩
    rw [if_neg hmr]
    apply ih l1 n r hn hr
    intro hd
    obtain ⟨n0, hm0, hr0⟩ := hd
    exact hnd ⟨n0, List.mem_append.mpr (Or.inl hm0), hr0⟩

/-! ## Database row lemmas -/

theorem filter_filter_incompatible {α : Type} (p q : α → Bool)
    (h : ∀ a, q a = true → p a = false) :
    ∀ l : List α, (l.filter q).filter p = [] := by
  intro l
  induction l with
  | nil => rfl
  | cons a l ih =>
    rw [List.filter_cons]
    by_cases hq : q a = true
    · rw [if_pos hq, List.filter_cons, if_neg (by rw [h a hq]; simp), ih]
    · rw [if_neg hq, ih]

theorem nodeRows_insertEdgeRows (g : String) :
    ∀ (es : List Edge) (db : DB), (insertEdgeRows db g es).nodeRows = db.nodeRows := by
  intro es
  induction es with
  | nil => intro db; rfl
  | cons e es ih =>
    intro db
    show (insertEdgeRows (insertEdgeRow db g e) g es).nodeRows = db.nodeRows
    rw [ih]
    rfl

theorem edgeRows_insertNodeRows (g : String) :
    ∀ (ns : List Node) (db : DB), (insertNodeRows db g ns).edgeRows = db.edgeRows := by
  intro ns
  induction ns with
  | nil => intro db; rfl
  | cons n ns ih =>
    intro db
    show (insertNodeRows (insertNodeRow db g n) g ns).edgeRows = db.edgeRows
    rw [ih]
    rfl

theorem listNodes_insertEdgeRows (db : DB) (g : String) (es : List Edge) (g2 : String) :
    ListNodes (insertEdgeRows db g es) g2 = ListNodes db g2 := by
  unfold ListNodes
  rw [nodeRows_insertEdgeRows]

theorem listEdges_insertNodeRows (db : DB) (g : String) (ns : List Node) (g2 : String) :
    ListEdges (insertNodeRows db g ns) g2 = ListEdges db g2 := by
  unfold ListEdges
  rw [edgeRows_insertNodeRows]

theorem listNodes_insertNodeRows (g : String) :
    ∀ (ns : List Node) (db : DB),
      ListNodes (insertNodeRows db g ns) g = ListNodes db g ++ ns.map stripNodeRef := by
  intro ns
  induction ns with
  | nil => intro db; simp [insertNodeRows]
  | cons n ns ih =>
    intro db
    show ListNodes (insertNodeRows (insertNodeRow db g n) g ns) g = _
    rw [ih]
    have hone : ListNodes (insertNodeRow db g n) g = ListNodes db g ++ [stripNodeRef n] := by
      unfold ListNodes insertNodeRow
      rw [show ({ db with nodeRows := db.nodeRows ++ [⟨n.id, g, n.data⟩] } : DB).nodeRows
          = db.nodeRows ++ [⟨n.id, g, n.data⟩] from rfl]
      rw [List.filter_append, List.map_append]
      congr 1
      simp [stripNodeRef, nodeOfRow]
    rw [hone, List.map_cons]
    simp

theorem listEdges_insertEdgeRows (g : String) :
    ∀ (es : List Edge) (db : DB),
      ListEdges (insertEdgeRows db g es) g = ListEdges db g ++ es.map stripEdgeRefs := by
  intro es
  induction es with
  | nil => intro db; simp [insertEdgeRows]
  | cons e es ih =>
    intro db
    show ListEdges (insertEdgeRows (insertEdgeRow db g e) g es) g = _
    rw [ih]
    have hone : ListEdges (insertEdgeRow db g e) g = ListEdges db g ++ [stripEdgeRefs e] := by
      unfold ListEdges insertEdgeRow
      rw [show ({ db with edgeRows :=
            db.edgeRows ++ [⟨e.id, g, e.fromNodeID, e.toNodeID, e.data⟩] } : DB).edgeRows
          = db.edgeRows ++ [⟨e.id, g, e.fromNodeID, e.toNodeID, e.data⟩] from rfl]
      rw [List.filter_append, List.map_append]
      congr 1
      simp [stripEdgeRefs, edgeOfRow]
    rw [hone, List.map_cons]
    simp

theorem deleteDagRows_nodeRows (db : DB) (g : String) :
    (deleteDagRows db g).nodeRows = db.nodeRows.filter (fun r => ¬ r.dagID = g) := rfl

theorem deleteDagRows_edgeRows (db : DB) (g : String) :
    (deleteDagRows db g).edgeRows = db.edgeRows.filter (fun r => ¬ r.dagID = g) := rfl

theorem listNodes_deleteDagRows (db : DB) (g : String) :
    ListNodes (deleteDagRows db g) g = [] := by
  unfold ListNodes
  rw [deleteDagRows_nodeRows]
  rw [filter_filter_incompatible _ _ (fun a ha => by simpa using ha) db.nodeRows]
  rfl

theorem listEdges_deleteDagRows (db : DB) (g : String) :
    ListEdges (deleteDagRows db g) g = [] := by
  unfold ListEdges
  rw [deleteDagRows_edgeRows]
  rw [filter_filter_incompatible _ _ (fun a ha => by simpa using ha) db.edgeRows]
  rfl

/-! ## CreateDAG characterization -/

/-- When resolution and validation succeed, `CreateDAG` returns exactly the
stripped resolved graph and the transactionally replaced database. -/
theorem createDAG_eq_of_resolved (db : DB) (gen : Nat → String) (d : DAG)
    (re : List Edge × Nat)
    (hre : resolveEdges (refMapOf (assignNodes gen 0 d.nodes).1) gen
      (assignNodes gen 0 d.nodes).2 d.edges = Except.ok re)
    (hval : validateAcyclic (assignNodes gen 0 d.nodes).1 re.1 = Except.ok ()) :
    CreateDAG db gen d =
      (Except.ok { id := d.id, nodes := (assignNodes gen 0 d.nodes).1.map stripNodeRef,
                   edges := re.1.map stripEdgeRefs },
       insertEdgeRows (insertNodeRows (deleteDagRows db d.id) d.id
         (assignNodes gen 0 d.nodes).1) d.id re.1) := by
  unfold CreateDAG
  simp only [hre, hval]

/-- A successful `CreateDAG` decomposes into its pipeline stages. -/
theorem createDAG_ok_spec (db : DB) (gen : Nat → String) (d : DAG) (out : DAG)
    (h : (CreateDAG db gen d).1 = Except.ok out) :
    ∃ re : List Edge × Nat,
      resolveEdges (refMapOf (assignNodes gen 0 d.nodes).1) gen
        (assignNodes gen 0 d.nodes).2 d.edges = Except.ok re ∧
      validateAcyclic (assignNodes gen 0 d.nodes).1 re.1 = Except.ok () ∧
      out = { id := d.id, nodes := (assignNodes gen 0 d.nodes).1.map stripNodeRef,
              edges := re.1.map stripEdgeRefs } ∧
      (CreateDAG db gen d).2 = insertEdgeRows (insertNodeRows (deleteDagRows db d.id)
        d.id (assignNodes gen 0 d.nodes).1) d.id re.1 := by
  unfold CreateDAG at h
  split at h
  next err heq => simp at h
  next re hre =>
    split at h
    next err heq => simp at h
    next u hval =>
      cases u
      simp only [Except.ok.injEq] at h
      have heq := createDAG_eq_of_resolved db gen d re hre hval
      refine ⟨re, hre, hval, h.symm, ?_⟩
      rw [heq]

/-- A failed `CreateDAG` leaves the database unchanged. -/
theorem createDAG_error_spec (db : DB) (gen : Nat → String) (d : DAG) (err : DagError)
    (h : (CreateDAG db gen d).1 = Except.error err) : (CreateDAG db gen d).2 = db := by
  unfold CreateDAG at h ⊢
  split at h
  next err1 heq =>
    simp only [heq]
  next re hre =>
    split at h
    next err1 heq =>
      simp only [hre, heq]
    next u hval =>
      cases u
      simp at h

/-- A failed ref resolution short-circuits `CreateDAG` before any write. -/
theorem createDAG_eq_of_resolve_error (db : DB) (gen : Nat → String) (d : DAG)
    (err : DagError)
    (hre : resolveEdges (refMapOf (assignNodes gen 0 d.nodes).1) gen
      (assignNodes gen 0 d.nodes).2 d.edges = Except.error err) :
    CreateDAG db gen d = (Except.error err, db) := by
  unfold CreateDAG
  simp only [hre]

/-- A failed validation short-circuits `CreateDAG` before any write. -/
theorem createDAG_eq_of_validate_error (db : DB) (gen : Nat → String) (d : DAG)
    (re : List Edge × Nat) (err : DagError)
    (hre : resolveEdges (refMapOf (assignNodes gen 0 d.nodes).1) gen
      (assignNodes gen 0 d.nodes).2 d.edges = Except.ok re)
    (hval : validateAcyclic (assignNodes gen 0 d.nodes).1 re.1 = Except.error err) :
    CreateDAG db gen d = (Except.error err, db) := by
  unfold CreateDAG
  simp only [hre, hval]

/-- A `CreateDAG` error is a resolution error or the cycle sentinel. -/
theorem createDAG_error_cases (db : DB) (gen : Nat → String) (d : DAG) (err : DagError)
    (h : (CreateDAG db gen d).1 = Except.error err) :
    resolveEdges (refMapOf (assignNodes gen 0 d.nodes).1) gen
      (assignNodes gen 0 d.nodes).2 d.edges = Except.error err ∨
    err = DagError.cycleDetected := by
  unfold CreateDAG at h
  split at h
  next err1 heq =>
    simp only [Except.error.injEq] at h
    subst h
    left
    exact heq
  next re hre =>
    split at h
    next err1 hval =>
      simp only [Except.error.injEq] at h
      subst h
      rcases validateAcyclic_total (assignNodes gen 0 d.nodes).1 re.1 with hok | hcd
      · rw [hok] at hval; simp at hval
      · rw [hcd] at hval
        simp only [Except.error.injEq] at hval
        right
        exact hval.symm
    next u hval =>
      cases u
      simp at h

theorem forall₂_exists_of_mem_right {α β : Type} {R : α → β → Prop} :
    ∀ {l1 : List α} {l2 : List β}, List.Forall₂ R l1 l2 →
      ∀ b ∈ l2, ∃ a ∈ l1, R a b := by
  intro l1 l2 h
  induction h with
  | nil => intro b hb; cases hb
  | @cons x y xs ys hxy htail ih =>
    intro b hb
    rcases List.mem_cons.mp hb with rfl | hmem
    · exact ⟨x, List.mem_cons_self x xs, hxy⟩
    · obtain ⟨a, ha, hr⟩ := ih b hmem
      exact ⟨a, List.mem_cons_of_mem _ ha, hr⟩

theorem forall₂_append_cons_decomp {α β : Type} {R : α → β → Prop} :
    ∀ (l1 : List α) (a : α) (l2 : List α) (out : List β),
      List.Forall₂ R (l1 ++ a :: l2) out →
      ∃ o1 b o2, out = o1 ++ b :: o2 ∧ List.Forall₂ R l1 o1 ∧ R a b ∧
        List.Forall₂ R l2 o2 := by
  intro l1
  induction l1 with
  | nil =>
    intro a l2 out h
    cases h with
    | cons hab htail => exact ⟨[], _, _, rfl, List.Forall₂.nil, hab, htail⟩
  | cons x l1 ih =>
    intro a l2 out h
    cases h with
    | @cons _ y _ ys hxy htail =>
      obtain ⟨o1, b, o2, rfl, h1, h2, h3⟩ := ih a l2 ys htail
      exact ⟨y :: o1, b, o2, rfl, List.Forall₂.cons hxy h1, h2, h3⟩

/-- Id assignment does not change which ref labels are declared. -/
theorem declaresRef_assign_iff (gen : Nat → String) (ns : List Node) (r : String) :
    declaresRef (assignNodes gen 0 ns).1 r ↔ declaresRef ns r := by
  have hf := assignNodes_forall₂ gen 0 ns
  constructor
  · rintro ⟨nA, hmem, href⟩
    obtain ⟨n, hn, hrel⟩ := forall₂_exists_of_mem_right hf nA hmem
    exact ⟨n, hn, by rw [← hrel.1]; exact href⟩
  · rintro ⟨n, hn, href⟩
    obtain ⟨nA, hnA, hrel⟩ := forall₂_exists_of_mem_left hf n hn
    exact ⟨nA, hnA, by rw [hrel.1]; exact href⟩

/-- The cycle predicate ignores the id of an appended candidate edge. -/
theorem edgeStep_append_mono (es : List Edge) (e1 e2 : Edge)
    (hfrom : e1.fromNodeID = e2.fromNodeID) (hto : e1.toNodeID = e2.toNodeID)
    (u v : String) (h : edgeStep (es ++ [e1]) u v) : edgeStep (es ++ [e2]) u v := by
  obtain ⟨e, he, hf, ht⟩ := h
  rcases List.mem_append.mp he with hm | hm
  · exact ⟨e, List.mem_append.mpr (Or.inl hm), hf, ht⟩
  · obtain rfl := List.mem_singleton.mp hm
    exact ⟨e2, List.mem_append.mpr (Or.inr (by simp)),
      by rw [← hfrom]; exact hf, by rw [← hto]; exact ht⟩

theorem hasCycle_append_congr (es : List Edge) (e1 e2 : Edge)
    (hfrom : e1.fromNodeID = e2.fromNodeID) (hto : e1.toNodeID = e2.toNodeID) :
    hasCycle (es ++ [e1]) ↔ hasCycle (es ++ [e2]) := by
  constructor
  · rintro ⟨u, h⟩
    exact ⟨u, Relation.TransGen.mono
      (fun a b hab => edgeStep_append_mono es e1 e2 hfrom hto a b hab) h⟩
  · rintro ⟨u, h⟩
    exact ⟨u, Relation.TransGen.mono
      (fun a b hab => edgeStep_append_mono es e2 e1 hfrom.symm hto.symm a b hab) h⟩

/-! # Claim theorems -/

/-- C1: the cycle validator returns the cycle-detected error if and only if
the input edge list, viewed as a directed graph over node ids, contains a
directed cycle (self-loops and ids appearing only as edge endpoints
included, duplicate parallel edges are not a cycle); on every cycle-free
input it returns success. -/
theorem c1_validator_error_iff_cycle (nodes : List Node) (edges : List Edge) :
    (validateAcyclic nodes edges = Except.error DagError.cycleDetected ↔ hasCycle edges) ∧
    (validateAcyclic nodes edges = Except.ok () ↔ ¬ hasCycle edges) :=
  ⟨validateAcyclic_error_iff nodes edges, validateAcyclic_ok_iff nodes edges⟩

/-- C2: AddEdge fails with the cycle-detected error exactly when the full
existing edge set of the graph plus the candidate edge has a directed
cycle, and in that case the persisted edge set is left unchanged. -/
theorem c2_addEdge_cycle_rejection (db : DB) (dagID : String) (edge : Edge)
    (genID : String) :
    ((AddEdge db dagID edge genID).1 = Except.error DagError.cycleDetected ↔
      hasCycle (ListEdges db dagID ++ [edge])) ∧
    (hasCycle (ListEdges db dagID ++ [edge]) → (AddEdge db dagID edge genID).2 = db) := by
  have hinv : hasCycle (ListEdges db dagID ++ [assignEdgeID edge genID]) ↔
      hasCycle (ListEdges db dagID ++ [edge]) := by
    apply hasCycle_append_congr
    · unfold assignEdgeID; by_cases h : edge.id = "" <;> simp [h]
    · unfold assignEdgeID; by_cases h : edge.id = "" <;> simp [h]
  unfold AddEdge addEdgeValidation
  rcases hval : validateAcyclic (ListNodes db dagID)
      (ListEdges db dagID ++ [assignEdgeID edge genID]) with err | u
  · have herr : err = DagError.cycleDetected := by
      rcases validateAcyclic_total (ListNodes db dagID)
          (ListEdges db dagID ++ [assignEdgeID edge genID]) with hok | hcd
      · rw [hok] at hval; simp at hval
      · rw [hcd] at hval
        simp only [Except.error.injEq] at hval
        exact hval.symm
    subst herr
    have hcyc : hasCycle (ListEdges db dagID ++ [edge]) :=
      hinv.mp ((validateAcyclic_error_iff _ _).mp hval)
    exact ⟨iff_of_true rfl hcyc, fun _ => rfl⟩
  · cases u
    have hnc : ¬ hasCycle (ListEdges db dagID ++ [edge]) := by
      intro hc
      exact absurd ((validateAcyclic_ok_iff _ _).mp hval) (not_not_intro (hinv.mpr hc))
    refine ⟨iff_of_false (by simp) hnc, fun hc => absurd hc hnc⟩

/-- The cycle-rejection claim exercised on the spec's concrete example:
graph `q1→q2→q3`, candidate `q3→q1`. -/
theorem c2_witness :
    (AddEdge dbW2 "g" edgeW2 "u7").1 = Except.error DagError.cycleDetected ∧
    (AddEdge dbW2 "g" edgeW2 "u7").2 = dbW2 := by
  have hcyc : hasCycle (ListEdges dbW2 "g" ++ [edgeW2]) :=
    (validateAcyclic_error_iff [] (ListEdges dbW2 "g" ++ [edgeW2])).mp rfl
  exact ⟨(c2_addEdge_cycle_rejection dbW2 "g" edgeW2 "u7").1.mpr hcyc,
    (c2_addEdge_cycle_rejection dbW2 "g" edgeW2 "u7").2 hcyc⟩

/-- C6: updating an edge id that exists nowhere in the store fails with the
edge-not-found error and leaves the store unchanged. -/
theorem c6_updateEdge_not_found (db : DB) (edge : Edge)
    (h : ∀ r ∈ db.edgeRows, r.id ≠ edge.id) :
    (UpdateEdge db edge).1 = Except.error DagError.edgeNotFound ∧
    (UpdateEdge db edge).2 = db := by
  have hfind : findEdgeDagID db edge.id = none := by
    unfold findEdgeDagID
    rw [List.find?_eq_none.mpr (fun r hr => by simpa using h r hr)]
    rfl
  unfold UpdateEdge
  rw [hfind]
  exact ⟨rfl, rfl⟩

/-- The not-found claim exercised on an empty store. -/
theorem c6_witness :
    (UpdateEdge ⟨[], []⟩ ⟨"e9", "a", "b", "", "", "{}"⟩).1 =
      Except.error DagError.edgeNotFound ∧
    (UpdateEdge ⟨[], []⟩ ⟨"e9", "a", "b", "", "", "{}"⟩).2 = ⟨[], []⟩ :=
  c6_updateEdge_not_found ⟨[], []⟩ ⟨"e9", "a", "b", "", "", "{}"⟩ (by simp)

/-- C8: deleting a node removes its row and cascades to every edge row in
which it appears as source or target, so no persisted edge references the
deleted node afterwards. -/
theorem c8_deleteNode_cascades (db : DB) (nodeID : String) :
    (∀ r ∈ (DeleteNode db nodeID).edgeRows,
      r.fromNodeID ≠ nodeID ∧ r.toNodeID ≠ nodeID) ∧
    (∀ r ∈ (DeleteNode db nodeID).nodeRows, r.id ≠ nodeID) := by
  constructor
  · intro r hr
    have hr2 : r ∈ db.edgeRows.filter (fun r =>
        ¬ (r.fromNodeID = nodeID ∨ r.toNodeID = nodeID)) := hr
    rw [List.mem_filter] at hr2
    have hp := hr2.2
    simp only [decide_eq_true_eq, not_or] at hp
    exact hp
  · intro r hr
    have hr2 : r ∈ db.nodeRows.filter (fun r => ¬ r.id = nodeID) := hr
    rw [List.mem_filter] at hr2
    have hp := hr2.2
    simpa using hp

/-- The cascade claim exercised on `dbW8` after deleting node `a`: the
surviving edge `x2` does not reference `a`. -/
theorem c8_witness :
    (⟨"x2", "g", "b", "c", "{}"⟩ : EdgeRow).fromNodeID ≠ "a" ∧
    (⟨"x2", "g", "b", "c", "{}"⟩ : EdgeRow).toNodeID ≠ "a" :=
  (c8_deleteNode_cascades dbW8 "a").1 ⟨"x2", "g", "b", "c", "{}"⟩ (by decide)

/-- C4: replace-graph fully supersedes and is atomic: after any successful
call the persisted rows for the graph id are exactly the returned nodes and
edges — so a successful second call leaves none of a first call's content —
and a failed call leaves the database unchanged. -/
theorem c4_replace_supersession (db : DB) (gen : Nat → String) (d : DAG) :
    (∀ out, (CreateDAG db gen d).1 = Except.ok out →
      ListNodes (CreateDAG db gen d).2 d.id = out.nodes ∧
      ListEdges (CreateDAG db gen d).2 d.id = out.edges) ∧
    (∀ err, (CreateDAG db gen d).1 = Except.error err →
      (CreateDAG db gen d).2 = db) := by
  constructor
  · intro out hok
    obtain ⟨re, hre, hval, hout, hdb⟩ := createDAG_ok_spec db gen d out hok
    subst hout
    rw [hdb]
    constructor
    · rw [listNodes_insertEdgeRows, listNodes_insertNodeRows, listNodes_deleteDagRows]
      simp
    · rw [listEdges_insertEdgeRows, listEdges_insertNodeRows, listEdges_deleteDagRows]
      simp
  · intro err herr
    exact createDAG_error_spec db gen d err herr

/-- The supersession claim exercised on two successive replace calls with
disjoint node sets: only the second call's node survives. -/
theorem c4_witness :
    ListNodes (CreateDAG (CreateDAG ⟨[], []⟩ genW dW4a).2 genW dW4b).2 "g" =
      (⟨"g", [⟨"b", "", "{}"⟩], []⟩ : DAG).nodes ∧
    ListEdges (CreateDAG (CreateDAG ⟨[], []⟩ genW dW4a).2 genW dW4b).2 "g" =
      (⟨"g", [⟨"b", "", "{}"⟩], []⟩ : DAG).edges :=
  (c4_replace_supersession (CreateDAG ⟨[], []⟩ genW dW4a).2 genW dW4b).1
    ⟨"g", [⟨"b", "", "{}"⟩], []⟩ rfl

/-- C9 (code bug evidence): the two phases of AddEdge — the read-validate
phase and the insert phase, which the source runs as separate unprotected
statements with no transaction — interleaved read-read-write-write on the
base graph `{q1,q2}`: each candidate validates successfully against its
stale read, both inserts are applied, and the persisted edge set of the
graph ends up cyclic, violating the at-most-one-success requirement. -/
theorem c9_race_interleaving :
    addEdgeValidation dbW9 "g" eW9a = Except.ok () ∧
    addEdgeValidation dbW9 "g" eW9b = Except.ok () ∧
    hasCycle (ListEdges (addEdgeInsert (addEdgeInsert dbW9 "g" eW9a) "g" eW9b) "g") ∧
    validateAcyclic (ListNodes (addEdgeInsert (addEdgeInsert dbW9 "g" eW9a) "g" eW9b) "g")
        (ListEdges (addEdgeInsert (addEdgeInsert dbW9 "g" eW9a) "g" eW9b) "g") =
      Except.error DagError.cycleDetected := by
  refine ⟨rfl, rfl, ?_, rfl⟩
  exact (validateAcyclic_error_iff [] _).mp rfl

theorem genW_ne_empty : ∀ k, genW k ≠ "" := by
  intro k
  unfold genW
  by_cases h : k = 0
  · rw [if_pos h]; decide
  · rw [if_neg h]; decide

/-- C3: a successful replace-graph returns a result in which every ref
field is empty, every node and edge has a nonempty id (generated when the
caller omitted one, given a generator that never yields the empty string),
each returned edge's endpoint ids are the ref map's images of the refs the
input edge carried, and the ref map sends each label to the final id of a
node that declared it, that node being among the returned nodes. -/
theorem c3_reference_round_trip (db : DB) (gen : Nat → String) (d : DAG) (out : DAG)
    (hgen : ∀ k, gen k ≠ "") (hok : (CreateDAG db gen d).1 = Except.ok out) :
    (∀ n ∈ out.nodes, n.ref = "" ∧ n.id ≠ "") ∧
    (∀ e ∈ out.edges, e.fromNodeRef = "" ∧ e.toNodeRef = "" ∧ e.id ≠ "") ∧
    List.Forall₂ (fun e eO =>
      (e.fromNodeRef ≠ "" →
        refMapOf (assignNodes gen 0 d.nodes).1 e.fromNodeRef = some eO.fromNodeID) ∧
      (e.toNodeRef ≠ "" →
        refMapOf (assignNodes gen 0 d.nodes).1 e.toNodeRef = some eO.toNodeID))
      d.edges out.edges ∧
    (∀ r nid, refMapOf (assignNodes gen 0 d.nodes).1 r = some nid →
      ∃ nA ∈ (assignNodes gen 0 d.nodes).1, nA.ref = r ∧ nA.id = nid ∧
        stripNodeRef nA ∈ out.nodes) := by
  obtain ⟨re, hre, hval, hout, -⟩ := createDAG_ok_spec db gen d out hok
  subst hout
  have hnodes := assignNodes_forall₂ gen 0 d.nodes
  have hedges := resolveEdges_ok_forall₂ _ gen _ d.edges re hre
  refine ⟨?_, ?_, ?_, ?_⟩
  · intro n hn
    have hn2 : n ∈ (assignNodes gen 0 d.nodes).1.map stripNodeRef := hn
    obtain ⟨nA, hnA, rfl⟩ := List.mem_map.mp hn2
    refine ⟨rfl, ?_⟩
    obtain ⟨n0, -, hrel⟩ := forall₂_exists_of_mem_right hnodes nA hnA
    rcases hrel.2.2 with ⟨-, k, hk⟩ | ⟨hne, hkeep⟩
    · show nA.id ≠ ""
      rw [hk]
      exact hgen k
    · show nA.id ≠ ""
      rw [hkeep]
      exact hne
  · intro e he
    have he2 : e ∈ re.1.map stripEdgeRefs := he
    obtain ⟨eR, heR, rfl⟩ := List.mem_map.mp he2
    refine ⟨rfl, rfl, ?_⟩
    obtain ⟨e0, -, hrel⟩ := forall₂_exists_of_mem_right hedges eR heR
    rcases hrel.2.2.2.1 with ⟨-, k, hk⟩ | ⟨hne, hkeep⟩
    · show eR.id ≠ ""
      rw [hk]
      exact hgen k
    · show eR.id ≠ ""
      rw [hkeep]
      exact hne
  · show List.Forall₂ _ d.edges (re.1.map stripEdgeRefs)
    rw [List.forall₂_map_right_iff]
    refine List.Forall₂.imp ?_ hedges
    intro e eR hrel
    obtain ⟨-, -, -, -, -, hf7, -, ht7⟩ := hrel
    exact ⟨hf7, ht7⟩
  · intro r nid hmap
    obtain ⟨nA, hmem, hrr, hid⟩ := refMapOf_some_declarer _ r nid hmap
    exact ⟨nA, hmem, hrr, hid, List.mem_map.mpr ⟨nA, hmem, rfl⟩⟩

/-- The round-trip claim exercised on the spec's example input `dW3`. -/
theorem c3_witness :
    (∀ n ∈ outW3.nodes, n.ref = "" ∧ n.id ≠ "") ∧
    (∀ e ∈ outW3.edges, e.fromNodeRef = "" ∧ e.toNodeRef = "" ∧ e.id ≠ "") ∧
    List.Forall₂ (fun e eO =>
      (e.fromNodeRef ≠ "" →
        refMapOf (assignNodes genW 0 dW3.nodes).1 e.fromNodeRef = some eO.fromNodeID) ∧
      (e.toNodeRef ≠ "" →
        refMapOf (assignNodes genW 0 dW3.nodes).1 e.toNodeRef = some eO.toNodeID))
      dW3.edges outW3.edges ∧
    (∀ r nid, refMapOf (assignNodes genW 0 dW3.nodes).1 r = some nid →
      ∃ nA ∈ (assignNodes genW 0 dW3.nodes).1, nA.ref = r ∧ nA.id = nid ∧
        stripNodeRef nA ∈ outW3.nodes) :=
  c3_reference_round_trip ⟨[], []⟩ genW dW3 outW3 genW_ne_empty rfl

/-- C5: an edge whose from or to ref matches no ref declared by the input
nodes makes CreateDAG fail with an unknown-reference error naming an
offending ref on its side, and the database is returned unchanged (no node
or edge is written; resolution fails before the transaction opens). -/
theorem c5_unknown_reference (db : DB) (gen : Nat → String) (d : DAG)
    (h : ∃ e ∈ d.edges,
      (e.fromNodeRef ≠ "" ∧ ¬ declaresRef d.nodes e.fromNodeRef) ∨
      (e.toNodeRef ≠ "" ∧ ¬ declaresRef d.nodes e.toNodeRef)) :
    (∃ r, r ≠ "" ∧ ¬ declaresRef d.nodes r ∧
      (((CreateDAG db gen d).1 = Except.error (DagError.unknownFromRef r) ∧
        ∃ e ∈ d.edges, e.fromNodeRef = r) ∨
       ((CreateDAG db gen d).1 = Except.error (DagError.unknownToRef r) ∧
        ∃ e ∈ d.edges, e.toNodeRef = r))) ∧
    (CreateDAG db gen d).2 = db := by
  have hmap : ∀ r, r ≠ "" → ¬ declaresRef d.nodes r →
      refMapOf (assignNodes gen 0 d.nodes).1 r = none := by
    intro r hr hnd
    rw [refMapOf_none_iff _ r hr, declaresRef_assign_iff]
    exact hnd
  obtain ⟨e, he, hbad⟩ := h
  have hex : ∃ err, resolveEdges (refMapOf (assignNodes gen 0 d.nodes).1) gen
      (assignNodes gen 0 d.nodes).2 d.edges = Except.error err := by
    apply resolveEdges_error_of_unknown
    refine ⟨e, he, ?_⟩
    rcases hbad with ⟨hne, hnd⟩ | ⟨hne, hnd⟩
    · exact Or.inl ⟨hne, hmap _ hne hnd⟩
    · exact Or.inr ⟨hne, hmap _ hne hnd⟩
  obtain ⟨err, herr⟩ := hex
  have heqd := createDAG_eq_of_resolve_error db gen d err herr
  rcases resolveEdges_error_spec _ gen _ d.edges err herr with
    ⟨r, hr1, hr2, hr3, e0, he0, hr4⟩ | ⟨r, hr1, hr2, hr3, e0, he0, hr4⟩
  · refine ⟨⟨r, hr2, ?_, Or.inl ⟨by rw [heqd, hr1], e0, he0, hr4⟩⟩, by rw [heqd]⟩
    rw [← declaresRef_assign_iff gen d.nodes r]
    exact (refMapOf_none_iff _ r hr2).mp hr3
  · refine ⟨⟨r, hr2, ?_, Or.inr ⟨by rw [heqd, hr1], e0, he0, hr4⟩⟩, by rw [heqd]⟩
    rw [← declaresRef_assign_iff gen d.nodes r]
    exact (refMapOf_none_iff _ r hr2).mp hr3

/-- The unknown-reference claim exercised on `dW5`, whose edge uses the
undeclared to ref `zz`. -/
theorem c5_witness :
    (∃ r, r ≠ "" ∧ ¬ declaresRef dW5.nodes r ∧
      (((CreateDAG ⟨[], []⟩ genW dW5).1 = Except.error (DagError.unknownFromRef r) ∧
        ∃ e ∈ dW5.edges, e.fromNodeRef = r) ∨
       ((CreateDAG ⟨[], []⟩ genW dW5).1 = Except.error (DagError.unknownToRef r) ∧
        ∃ e ∈ dW5.edges, e.toNodeRef = r))) ∧
    (CreateDAG ⟨[], []⟩ genW dW5).2 = ⟨[], []⟩ :=
  c5_unknown_reference ⟨[], []⟩ genW dW5
    ⟨⟨"", "", "", "a", "zz", "{}"⟩, by simp [dW5],
      Or.inr ⟨by decide, by simp [declaresRef, dW5]⟩⟩

/-- C7 (counterexample): the claim fails on the code — in `dW7` the edge
carries both a from id (`X`) and a from ref (`a`), and CreateDAG overwrites
the id with the ref's resolution (`N`) instead of keeping it. -/
theorem c7_counterexample :
    (CreateDAG ⟨[], []⟩ genW dW7).1 = Except.ok outW7 ∧
    dW7.edges = [⟨"e1", "X", "M", "a", "", "{}"⟩] ∧
    outW7.edges = [⟨"e1", "N", "M", "", "", "{}"⟩] ∧
    (⟨"e1", "N", "M", "", "", "{}"⟩ : Edge).fromNodeID ≠ "X" :=
  ⟨rfl, rfl, rfl, by decide⟩

/-- C7 (amended): ref resolution is keyed on the ref fields, not on the
absence of an id — an edge with an empty from ref keeps its from id, and an
edge with a nonempty from ref has its from id overwritten with the ref's
mapping even when it already carried one; symmetric on the to side. -/
theorem c7_resolution_keyed_on_refs (db : DB) (gen : Nat → String) (d : DAG)
    (out : DAG) (hok : (CreateDAG db gen d).1 = Except.ok out) :
    List.Forall₂ (fun e eO =>
      (e.fromNodeRef = "" → eO.fromNodeID = e.fromNodeID) ∧
      (e.fromNodeRef ≠ "" →
        refMapOf (assignNodes gen 0 d.nodes).1 e.fromNodeRef = some eO.fromNodeID) ∧
      (e.toNodeRef = "" → eO.toNodeID = e.toNodeID) ∧
      (e.toNodeRef ≠ "" →
        refMapOf (assignNodes gen 0 d.nodes).1 e.toNodeRef = some eO.toNodeID))
      d.edges out.edges := by
  obtain ⟨re, hre, -, hout, -⟩ := createDAG_ok_spec db gen d out hok
  subst hout
  have hedges := resolveEdges_ok_forall₂ _ gen _ d.edges re hre
  show List.Forall₂ _ d.edges (re.1.map stripEdgeRefs)
  rw [List.forall₂_map_right_iff]
  refine List.Forall₂.imp ?_ hedges
  intro e eR hrel
  obtain ⟨-, -, -, -, hf6, hf7, ht6, ht7⟩ := hrel
  exact ⟨hf6, hf7, ht6, ht7⟩

/-- The amended resolution discipline exercised on `dW7`. -/
theorem c7_amended_witness :
    List.Forall₂ (fun e eO =>
      (e.fromNodeRef = "" → eO.fromNodeID = e.fromNodeID) ∧
      (e.fromNodeRef ≠ "" →
        refMapOf (assignNodes genW 0 dW7.nodes).1 e.fromNodeRef = some eO.fromNodeID) ∧
      (e.toNodeRef = "" → eO.toNodeID = e.toNodeID) ∧
      (e.toNodeRef ≠ "" →
        refMapOf (assignNodes genW 0 dW7.nodes).1 e.toNodeRef = some eO.toNodeID))
      dW7.edges outW7.edges :=
  c7_resolution_keyed_on_refs ⟨[], []⟩ genW dW7 outW7 rfl

/-- C10: duplicate ref labels resolve last-wins — with `nl` the last node
declaring label `r` (an earlier node `nd` also declares it), the ref map
sends `r` to `nl`'s final id, CreateDAG never fails with an unknown-
reference error naming `r`, and on success every edge using `r` on a side
resolves that side to `nl`'s final id. -/
theorem c10_duplicate_ref_last_wins (db : DB) (gen : Nat → String) (d : DAG)
    (l1 l2 : List Node) (nd nl : Node) (r : String)
    (hsplit : d.nodes = l1 ++ nl :: l2) (hd : nd ∈ l1) (hdr : nd.ref = r)
    (hlr : nl.ref = r) (hr : r ≠ "") (hl2 : ¬ declaresRef l2 r) :
    ∃ nA, NodeAssigned gen nl nA ∧
      refMapOf (assignNodes gen 0 d.nodes).1 r = some nA.id ∧
      (∀ err, (CreateDAG db gen d).1 = Except.error err →
        err ≠ DagError.unknownFromRef r ∧ err ≠ DagError.unknownToRef r) ∧
      (∀ out, (CreateDAG db gen d).1 = Except.ok out →
        List.Forall₂ (fun e eO => (e.fromNodeRef = r → eO.fromNodeID = nA.id) ∧
          (e.toNodeRef = r → eO.toNodeID = nA.id)) d.edges out.edges) := by
  have hnodes := assignNodes_forall₂ gen 0 d.nodes
  rw [hsplit] at hnodes
  obtain ⟨o1, nA, o2, hodec, ho1, hrel, ho2⟩ := forall₂_append_cons_decomp l1 nl l2 _ hnodes
  have hmap : refMapOf (assignNodes gen 0 d.nodes).1 r = some nA.id := by
    rw [hsplit, hodec]
    apply refMapOf_last_declarer o2 o1 nA r (by rw [hrel.1]; exact hlr) hr
    intro hdl
    obtain ⟨n0, hn0, hr0⟩ := hdl
    obtain ⟨m0, hm0, hrel0⟩ := forall₂_exists_of_mem_right ho2 n0 hn0
    exact hl2 ⟨m0, hm0, by rw [← hrel0.1]; exact hr0⟩
  refine ⟨nA, hrel, hmap, ?_, ?_⟩
  · intro err herr
    rcases createDAG_error_cases db gen d err herr with hres | hcd
    · rcases resolveEdges_error_spec _ gen _ d.edges err hres with
        ⟨r0, h1, -, h3, -⟩ | ⟨r0, h1, -, h3, -⟩
      · constructor
        · intro hcontra
          rw [hcontra] at h1
          injection h1 with h1
          rw [← h1, hmap] at h3
          simp at h3
        · intro hcontra
          rw [hcontra] at h1
          simp at h1
      · constructor
        · intro hcontra
          rw [hcontra] at h1
          simp at h1
        · intro hcontra
          rw [hcontra] at h1
          injection h1 with h1
          rw [← h1, hmap] at h3
          simp at h3
    · exact ⟨by rw [hcd]; simp, by rw [hcd]; simp⟩
  · intro out hok
    obtain ⟨re, hre, -, hout, -⟩ := createDAG_ok_spec db gen d out hok
    subst hout
    have hedges := resolveEdges_ok_forall₂ _ gen _ d.edges re hre
    show List.Forall₂ _ d.edges (re.1.map stripEdgeRefs)
    rw [List.forall₂_map_right_iff]
    refine List.Forall₂.imp ?_ hedges
    intro e eR hrel2
    obtain ⟨-, -, -, -, -, hf7, -, ht7⟩ := hrel2
    constructor
    · intro hfr
      have hsome := hf7 (by rw [hfr]; exact hr)
      rw [hfr, hmap] at hsome
      injection hsome with hsome
      exact hsome.symm
    · intro htr
      have hsome := ht7 (by rw [htr]; exact hr)
      rw [htr, hmap] at hsome
      injection hsome with hsome
      exact hsome.symm

/-- The last-wins claim exercised on `dW10`, whose two nodes both declare
`a`; the label resolves to the second node's generated id `u1`. -/
theorem c10_witness :
    ∃ nA, NodeAssigned genW (⟨"", "a", "{}"⟩ : Node) nA ∧
      refMapOf (assignNodes genW 0 dW10.nodes).1 "a" = some nA.id ∧
      (∀ err, (CreateDAG ⟨[], []⟩ genW dW10).1 = Except.error err →
        err ≠ DagError.unknownFromRef "a" ∧ err ≠ DagError.unknownToRef "a") ∧
      (∀ out, (CreateDAG ⟨[], []⟩ genW dW10).1 = Except.ok out →
        List.Forall₂ (fun e eO => (e.fromNodeRef = "a" → eO.fromNodeID = nA.id) ∧
          (e.toNodeRef = "a" → eO.toNodeID = nA.id)) dW10.edges out.edges) :=
  c10_duplicate_ref_last_wins ⟨[], []⟩ genW dW10 [⟨"", "a", "{}"⟩] []
    ⟨"", "a", "{}"⟩ ⟨"", "a", "{}"⟩ "a" rfl (by simp) rfl rfl (by decide)
    (by simp [declaresRef])

end DagSpec
